import Mathlib

set_option maxRecDepth 2048

/-!
# Verification of the OOH planner allocation core

Shallow embedding of the budget optimizer (`src/services/budget-optimizer.js`),
the recommendation service (`src/services/recommendation-service.js`) and the
per-row planning recalculator (`src/public/js/app.js`) of the `ooh-planner`
repository, together with proofs of the specification's claims about them.

Modelling conventions:
* JavaScript numbers are modelled as exact rationals (`ℚ`).  All arithmetic in
  the embedded code paths stays well within the range where IEEE doubles behave
  like the claimed algebra, except for division by zero: `ℚ` division returns 0
  there while JavaScript returns `Infinity`.  A separate small model (`JNum`)
  with `Infinity`/`NaN` values is used for the one claim about division by
  zero (`calculateROIJS`).
* `parseNumber` applied to an already-numeric value is the identity (source
  `budget-optimizer.js` line 86); Brazilian-format string parsing is outside
  the numeric model, so inventory fields are taken as rationals directly.
* JavaScript's `Array.prototype.sort` is a stable sort.  A stable sort by a
  comparator on a key equals sorting pairs (element, original index) by the
  lexicographic order (key first, original index second); the embedding tags
  elements with their index and uses `List.insertionSort` with that
  lexicographic relation.
* Display-only string formatting (`formatCurrency`, `toFixed`) is not
  modelled; the `roi` field of a selected face keeps the exact score the
  source formats with `toFixed(2)`.
-/

namespace OOH

/-- JavaScript `Math.round`: round half toward positive infinity. -/
def jsRound (q : ℚ) : ℤ := ⌊q + 1/2⌋

/-- Model of `Math.round(x*100)/100`: round to 2 decimal places. -/
def round2 (q : ℚ) : ℚ := (jsRound (q * 100) : ℚ) / 100

/-- One character of `String.prototype.toLowerCase`, restricted to ASCII and
the Latin-1 uppercase letters (covering the accented characters that appear in
the source's format tables: `Ô`, `É`, ...). -/
def charLower (c : Char) : Char :=
  let n := c.toNat
  if (65 ≤ n ∧ n ≤ 90) ∨ (192 ≤ n ∧ n ≤ 222 ∧ n ≠ 215) then Char.ofNat (n + 32) else c

/-- JavaScript `String.prototype.toLowerCase` (Latin-1 range). -/
def jsToLower (s : String) : String := ⟨s.data.map charLower⟩

/-- Whether `needle` occurs contiguously inside the character list. -/
def subOccurs (needle : List Char) : List Char → Bool
  | [] => needle.isPrefixOf []
  | c :: t => needle.isPrefixOf (c :: t) || subOccurs needle t

/-- JavaScript `String.prototype.includes`. -/
def jsIncludes (hay needle : String) : Bool := subOccurs needle.data hay.data

/-- Embedding of `parseNumber`: on a numeric argument it returns it unchanged
(`budget-optimizer.js` line 86: `if (typeof value === 'number') return value`). -/
def parseNumber (q : ℚ) : ℚ := q

/-- An inventory row as consumed by the budget optimizer.  `pesos = 0` encodes
a missing/empty weight (JavaScript `null`/`undefined` and `0` behave alike in
every use site: the `> 0` test of `calculateROI` and `|| 0.5` / `|| 0`
defaults). -/
structure Face where
  ID : ℕ
  praca : String
  uf : String
  exibidores : String
  formato : String
  taxonomia : String
  digital : ℚ
  estatico : ℚ
  ranking : ℚ
  pesos : ℚ
  unitario_bruto_negociado : ℚ
  range_minimo : ℚ
  range_maximo : ℚ
deriving DecidableEq

/-- Embedding of `getFormatMultiplier` (`budget-optimizer.js` lines 45-54). -/
def getFormatMultiplier (formato : String) : ℚ :=
  let formatLower := jsToLower formato
  if jsIncludes formatLower "outdoor" then 13/10
  else if jsIncludes formatLower "led" || jsIncludes formatLower "painel" then 12/10
  else if jsIncludes formatLower "front" then 11/10
  else if jsIncludes formatLower "toten" then 1
  else 1

/-- Embedding of `calculateROI` (`budget-optimizer.js` lines 14-40), in the exact-rational
model.  Note: at `price = 0`, `ℚ` division yields 0 whereas JavaScript yields
`Infinity`; `calculateROIJS` below models that case faithfully. -/
def calculateROI (face : Face) (campaignCycle : ℚ) : ℚ :=
  let price := parseNumber face.unitario_bruto_negociado
  let avgQuantity := (parseNumber face.range_minimo + parseNumber face.range_maximo) / 2
  let priceEfficiency := 10000 / price
  let quantityScore := avgQuantity * campaignCycle
  let formatMultiplier := getFormatMultiplier face.formato
  let digitalBonus : ℚ := if parseNumber face.digital = 1 then 12/10 else 1
  let peso : ℚ := if 0 < face.pesos then face.pesos else 1/2
  (priceEfficiency * (4/10) + quantityScore * (4/10)) * formatMultiplier * digitalBonus * peso

/-- Embedding of `getExposureFactor` (`budget-optimizer.js` lines 60-80).  The `estatico`
argument is converted to a boolean by the source but never used afterwards. -/
def getExposureFactor (formato : String) (digital estatico : ℚ) : ℕ :=
  let formatoLower := jsToLower formato
  let isDigital : Bool := decide (digital ≠ 0)
  let isEstatico : Bool := decide (estatico ≠ 0)
  if jsIncludes formatoLower "empena" || jsIncludes formatoLower "painel" then 50000
  else if jsIncludes formatoLower "metro" || jsIncludes formatoLower "metrô" then 45000
  else if jsIncludes formatoLower "aeroporto" then 40000
  else if jsIncludes formatoLower "shopping" then 35000
  else if jsIncludes formatoLower "parque" then 30000
  else if jsIncludes formatoLower "abrigo" || jsIncludes formatoLower "onibus"
      || jsIncludes formatoLower "ônibus" then (if isDigital then 25000 else 20000)
  else if jsIncludes formatoLower "mub" || jsIncludes formatoLower "banca" then 22000
  else if jsIncludes formatoLower "totem" then (if isDigital then 28000 else 18000)
  else if jsIncludes formatoLower "circuito" then 20000
  else if jsIncludes formatoLower "backbus" || jsIncludes formatoLower "back bus" then 18000
  else if jsIncludes formatoLower "backseat" || jsIncludes formatoLower "back seat" then 8000
  else if jsIncludes formatoLower "envelopamento" then 35000
  else if jsIncludes formatoLower "exterior" then 25000
  else if isDigital then 15000 else 12000

/-- A face decorated by `prioritizeFaces`: the spread face plus `roi` and
`unitPrice`, tagged with its original position `idx` (the identity the stable
sort preserves). -/
structure ScoredFace where
  face : Face
  roi : ℚ
  unitPrice : ℚ
  idx : ℕ
deriving DecidableEq

/-- The order realized by the stable descending sort
`.sort((a, b) => b.roi - a.roi)`: higher `roi` first, ties in original input
order. -/
def rankRel (a b : ScoredFace) : Prop :=
  b.roi < a.roi ∨ (a.roi = b.roi ∧ a.idx ≤ b.idx)

instance : DecidableRel rankRel := fun a b => by
  unfold rankRel; exact inferInstance

instance : IsTotal ScoredFace rankRel := by
  constructor
  intro a b
  rcases lt_trichotomy a.roi b.roi with h | h | h
  · exact Or.inr (Or.inl h)
  · rcases Nat.le_total a.idx b.idx with hi | hi
    · exact Or.inl (Or.inr ⟨h, hi⟩)
    · exact Or.inr (Or.inr ⟨h.symm, hi⟩)
  · exact Or.inl (Or.inl h)

instance : IsTrans ScoredFace rankRel := by
  constructor
  intro a b c hab hbc
  rcases hab with h1 | ⟨e1, i1⟩
  · rcases hbc with h2 | ⟨e2, i2⟩
    · exact Or.inl (h2.trans h1)
    · exact Or.inl (e2 ▸ h1)
  · rcases hbc with h2 | ⟨e2, i2⟩
    · exact Or.inl (e1 ▸ h2)
    · exact Or.inr ⟨e1.trans e2, i1.trans i2⟩

/-- Embedding of `prioritizeFaces` (`budget-optimizer.js` lines 108-116): score every face
and sort descending by `roi` with the stable JavaScript sort. -/
def prioritizeFaces (inventory : List Face) (campaignCycle : ℚ) : List ScoredFace :=
  ((inventory.enum.map fun p =>
      { face := p.2
        roi := calculateROI p.2 campaignCycle
        unitPrice := parseNumber p.2.unitario_bruto_negociado
        idx := p.1 : ScoredFace })).insertionSort rankRel

/-- A committed face (`budget-optimizer.js` lines 136-152).  `roi` keeps the
exact score (the source stores `roi.toFixed(2)`, a display string); `srcIdx`
records which input face was committed (the JavaScript object identity). -/
structure SelectedFace where
  id : ℕ
  praca : String
  uf : String
  exibidores : String
  formato : String
  taxonomia : String
  digital : ℚ
  estatico : ℚ
  ranking : ℚ
  pesos : ℚ
  quantity : ℚ
  unitPrice : ℚ
  totalCost : ℚ
  roi : ℚ
  priority : ℕ
  srcIdx : ℕ
deriving DecidableEq

/-- Build the record pushed by `allocateBudgetToFaces`. -/
def mkSelected (f : ScoredFace) (minQuantity unitPrice faceCost : ℚ) (priority : ℕ) :
    SelectedFace :=
  { id := f.face.ID
    praca := f.face.praca
    uf := f.face.uf
    exibidores := f.face.exibidores
    formato := f.face.formato
    taxonomia := f.face.taxonomia
    digital := f.face.digital
    estatico := f.face.estatico
    ranking := f.face.ranking
    pesos := f.face.pesos
    quantity := minQuantity
    unitPrice := unitPrice
    totalCost := faceCost
    roi := f.roi
    priority := priority
    srcIdx := f.idx }

/-- Result of `allocateBudgetToFaces`. -/
structure AllocationResult where
  selectedFaces : List SelectedFace
  allocatedBudget : ℚ
  remainingBudget : ℚ
  facesCount : ℚ
deriving DecidableEq

/-- The greedy loop of `allocateBudgetToFaces` (`budget-optimizer.js` lines
128-160): walk the ranked faces, commit each affordable face at its minimum
quantity, and stop once the remaining budget drops below the 1000 threshold. -/
def allocGo : List ScoredFace → ℚ → List SelectedFace → ℚ → List SelectedFace × ℚ × ℚ
  | [], remainingBudget, selectedFaces, totalFacesCount =>
      (selectedFaces, remainingBudget, totalFacesCount)
  | f :: rest, remainingBudget, selectedFaces, totalFacesCount =>
      let minQuantity := parseNumber f.face.range_minimo
      let unitPrice := parseNumber f.face.unitario_bruto_negociado
      let faceCost := unitPrice * minQuantity
      let step :=
        if faceCost ≤ remainingBudget ∧ 0 < minQuantity then
          (selectedFaces ++
              [mkSelected f minQuantity unitPrice faceCost (selectedFaces.length + 1)],
            remainingBudget - faceCost, totalFacesCount + minQuantity)
        else (selectedFaces, remainingBudget, totalFacesCount)
      if step.2.1 < 1000 then step else allocGo rest step.2.1 step.1 step.2.2

/-- Embedding of `allocateBudgetToFaces` (`budget-optimizer.js` lines 121-168). -/
def allocateBudgetToFaces (budget : ℚ) (inventory : List Face) (campaignCycle : ℚ) :
    AllocationResult :=
  let rankedFaces := prioritizeFaces inventory campaignCycle
  let out := allocGo rankedFaces budget [] 0
  { selectedFaces := out.1
    allocatedBudget := budget - out.2.1
    remainingBudget := out.2.1
    facesCount := out.2.2 }

/-- Embedding of `calculateIdealBudget` (`budget-optimizer.js` lines 173-187): sum
`price × minQty` over the top 75 % (rounded up) of the ranked faces. -/
def calculateIdealBudget (inventory : List Face) (campaignCycle : ℚ) : ℚ :=
  let rankedFaces := prioritizeFaces inventory campaignCycle
  let topFaces := rankedFaces.take ⌈(rankedFaces.length : ℚ) * (75/100)⌉.toNat
  (topFaces.map fun f =>
      parseNumber f.face.unitario_bruto_negociado * parseNumber f.face.range_minimo).sum

/-- Budget status assigned by `optimizeAllocation`. -/
inductive OptStatus
  | insufficient
  | excessive
  | sufficient
deriving DecidableEq

/-- Numeric payload of a non-error `optimizeAllocation` result
(`budget-optimizer.js` lines 233-249).  The display string `statusMessage` is
not modelled. -/
structure OptOk where
  status : OptStatus
  idealBudget : ℚ
  allocatedBudget : ℚ
  remainingBudget : ℚ
  facesCount : ℚ
  recommendedFaces : List SelectedFace
  minRecommended : ℚ
  maxRecommended : ℚ
  totalInventorySize : ℕ
  exposicao_estimada : ℚ
  eficiencia : ℚ
deriving DecidableEq

/-- Result of `optimizeAllocation`: the structured error for empty inventory
(`status: 'error'`, lines 197-202) or the success record. -/
inductive OptimizeResult
  | error
  | ok (r : OptOk)
deriving DecidableEq

/-- Embedding of `optimizeAllocation` (`budget-optimizer.js` lines 195-258).  The embedded
computation is total, matching the source where no exception can be raised on
the success path (the `catch` block is dead for numeric inputs). -/
def optimizeAllocation (budget campaignCycle : ℚ) (inventory : List Face) :
    OptimizeResult :=
  if inventory = [] then .error
  else
    let idealBudget := calculateIdealBudget inventory campaignCycle
    let allocation := allocateBudgetToFaces budget inventory campaignCycle
    let status : OptStatus :=
      if budget < idealBudget * (5/10) then .insufficient
      else if idealBudget * (15/10) < budget then .excessive
      else .sufficient
    let totalExposure := (allocation.selectedFaces.map fun face =>
        face.quantity * (getExposureFactor face.formato face.digital face.estatico : ℚ)).sum
    let eficiencia :=
      if 0 < allocation.allocatedBudget then totalExposure / allocation.allocatedBudget else 0
    .ok
      { status := status
        idealBudget := idealBudget
        allocatedBudget := allocation.allocatedBudget
        remainingBudget := allocation.remainingBudget
        facesCount := allocation.facesCount
        recommendedFaces := allocation.selectedFaces
        minRecommended := idealBudget * (5/10)
        maxRecommended := idealBudget * (15/10)
        totalInventorySize := inventory.length
        exposicao_estimada := totalExposure
        eficiencia := eficiencia }

/-- Projection: is the result the structured error? -/
def OptimizeResult.isErr : OptimizeResult → Bool
  | .error => true
  | .ok _ => false

/-- Projection: the status of a success result. -/
def OptimizeResult.statusOf : OptimizeResult → Option OptStatus
  | .error => none
  | .ok r => some r.status

/-- Projection: the allocated budget of a success result. -/
def OptimizeResult.allocatedOf : OptimizeResult → Option ℚ
  | .error => none
  | .ok r => some r.allocatedBudget

/-- Projection: the remaining budget of a success result. -/
def OptimizeResult.remainingOf : OptimizeResult → Option ℚ
  | .error => none
  | .ok r => some r.remainingBudget

/-- Projection: the faces count of a success result. -/
def OptimizeResult.facesCountOf : OptimizeResult → Option ℚ
  | .error => none
  | .ok r => some r.facesCount

/-- Projection: the ideal budget of a success result. -/
def OptimizeResult.idealOf : OptimizeResult → Option ℚ
  | .error => none
  | .ok r => some r.idealBudget

/-!
## IEEE-style value model for the division-by-zero claim

`JNum` refines the rational model with the JavaScript `Infinity` / `NaN`
values (rounding is still ignored; negative zero is not distinguished, which
is irrelevant here since the only divisor is a parsed price).
-/

/-- A JavaScript number: finite, `Infinity`, `-Infinity`, or `NaN`. -/
inductive JNum
  | fin (q : ℚ)
  | inf
  | ninf
  | nan
deriving DecidableEq

/-- JavaScript addition on `JNum`. -/
def jadd : JNum → JNum → JNum
  | .nan, _ => .nan
  | _, .nan => .nan
  | .fin a, .fin b => .fin (a + b)
  | .fin _, .inf => .inf
  | .inf, .fin _ => .inf
  | .inf, .inf => .inf
  | .fin _, .ninf => .ninf
  | .ninf, .fin _ => .ninf
  | .ninf, .ninf => .ninf
  | .inf, .ninf => .nan
  | .ninf, .inf => .nan

/-- JavaScript multiplication on `JNum`. -/
def jmul : JNum → JNum → JNum
  | .nan, _ => .nan
  | _, .nan => .nan
  | .fin a, .fin b => .fin (a * b)
  | .fin a, .inf => if 0 < a then .inf else if a < 0 then .ninf else .nan
  | .inf, .fin b => if 0 < b then .inf else if b < 0 then .ninf else .nan
  | .fin a, .ninf => if 0 < a then .ninf else if a < 0 then .inf else .nan
  | .ninf, .fin b => if 0 < b then .ninf else if b < 0 then .inf else .nan
  | .inf, .inf => .inf
  | .inf, .ninf => .ninf
  | .ninf, .inf => .ninf
  | .ninf, .ninf => .inf

/-- JavaScript division on `JNum` (the cases the scoring engine can reach):
`x / 0` is `Infinity` for positive `x`, `-Infinity` for negative `x`, `NaN`
for `0 / 0`. -/
def jdiv : JNum → JNum → JNum
  | .nan, _ => .nan
  | _, .nan => .nan
  | .fin a, .fin b =>
      if b = 0 then (if 0 < a then .inf else if a < 0 then .ninf else .nan)
      else .fin (a / b)
  | .fin _, .inf => .fin 0
  | .fin _, .ninf => .fin 0
  | .inf, .fin b => if 0 ≤ b then .inf else .ninf
  | .ninf, .fin b => if 0 ≤ b then .ninf else .inf
  | .inf, _ => .nan
  | .ninf, _ => .nan

/-- Embedding of `calculateROI` with IEEE `Infinity`/`NaN` propagation: the same expression
as `calculateROI` (`budget-optimizer.js` lines 14-40) evaluated in `JNum`.
Only the `10000 / price` site can leave the finite fragment. -/
def calculateROIJS (face : Face) (campaignCycle : ℚ) : JNum :=
  let price : JNum := .fin (parseNumber face.unitario_bruto_negociado)
  let avgQuantity : JNum :=
    .fin ((parseNumber face.range_minimo + parseNumber face.range_maximo) / 2)
  let priceEfficiency := jdiv (.fin 10000) price
  let quantityScore := jmul avgQuantity (.fin campaignCycle)
  let formatMultiplier : JNum := .fin (getFormatMultiplier face.formato)
  let digitalBonus : JNum := .fin (if parseNumber face.digital = 1 then 12/10 else 1)
  let peso : JNum := .fin (if 0 < face.pesos then face.pesos else 1/2)
  jmul (jmul (jmul
      (jadd (jmul priceEfficiency (.fin (4/10))) (jmul quantityScore (.fin (4/10))))
      formatMultiplier) digitalBonus) peso

/-!
## The exposure table as the specification words it

For the refinement claim about `getExposureFactor`, the table is restated
from the specification's own listing (§4.3): an ordered list of entries, each
a set of substrings and a value selected by the digital flag, with the first
matching entry winning and a digital-dependent fallback.
-/

/-- One row of the specification's exposure table. -/
structure ExposureEntry where
  subs : List String
  value : Bool → ℕ

/-- First-match lookup over an exposure table, with the specification's
fallback `15000 (digital) / 12000 (static)`. -/
def exposureLookup (table : List ExposureEntry) (formato : String) (digital : Bool) : ℕ :=
  match table with
  | [] => if digital then 15000 else 12000
  | e :: rest =>
      if e.subs.any (fun s => jsIncludes (jsToLower formato) s) then e.value digital
      else exposureLookup rest formato digital

/-- The table exactly as the specification lists it:
`empena/painel→50000, metro→45000, aeroporto→40000, shopping→35000,
parque→30000, abrigo/onibus→20000|25000, mub/banca→22000, totem→18000|28000,
circuito→20000, backbus→18000, backseat→8000, envelopamento→35000,
exterior→25000`. -/
def specExposureTable : List ExposureEntry :=
  [ ⟨["empena", "painel"], fun _ => 50000⟩
  , ⟨["metro"], fun _ => 45000⟩
  , ⟨["aeroporto"], fun _ => 40000⟩
  , ⟨["shopping"], fun _ => 35000⟩
  , ⟨["parque"], fun _ => 30000⟩
  , ⟨["abrigo", "onibus"], fun d => if d then 25000 else 20000⟩
  , ⟨["mub", "banca"], fun _ => 22000⟩
  , ⟨["totem"], fun d => if d then 28000 else 18000⟩
  , ⟨["circuito"], fun _ => 20000⟩
  , ⟨["backbus"], fun _ => 18000⟩
  , ⟨["backseat"], fun _ => 8000⟩
  , ⟨["envelopamento"], fun _ => 35000⟩
  , ⟨["exterior"], fun _ => 25000⟩ ]

/-- The specification's table amended by the accent/space variants the source
additionally matches: `metrô`, `ônibus`, `back bus`, `back seat`. -/
def specExposureTableAmended : List ExposureEntry :=
  [ ⟨["empena", "painel"], fun _ => 50000⟩
  , ⟨["metro", "metrô"], fun _ => 45000⟩
  , ⟨["aeroporto"], fun _ => 40000⟩
  , ⟨["shopping"], fun _ => 35000⟩
  , ⟨["parque"], fun _ => 30000⟩
  , ⟨["abrigo", "onibus", "ônibus"], fun d => if d then 25000 else 20000⟩
  , ⟨["mub", "banca"], fun _ => 22000⟩
  , ⟨["totem"], fun d => if d then 28000 else 18000⟩
  , ⟨["circuito"], fun _ => 20000⟩
  , ⟨["backbus", "back bus"], fun _ => 18000⟩
  , ⟨["backseat", "back seat"], fun _ => 8000⟩
  , ⟨["envelopamento"], fun _ => 35000⟩
  , ⟨["exterior"], fun _ => 25000⟩ ]

/-!
## Recommendation service (`src/services/recommendation-service.js`)
-/

/-- One entry of the user's manual plan: a format name and the adjusted
quantity. -/
structure ManualFormat where
  name : String
  adjustedQty : ℚ
deriving DecidableEq

/-- A manual plan (`manualPlan.formats`). -/
structure ManualPlan where
  formats : List ManualFormat
deriving DecidableEq

/-- A per-format group of an ideal plan (`recommendation-service.js` lines
61-68). -/
structure FormatGroup where
  name : String
  recommendedQty : ℚ
  totalCost : ℚ
  avgUnitCost : ℚ
  totalExposure : ℚ
  faces : List SelectedFace
deriving DecidableEq

/-- The fields of an ideal plan that `calculateEfficiency` reads. -/
structure IdealPlan where
  formats : List FormatGroup
  totalCost : ℚ
  totalExposure : ℚ
  efficiency : ℚ
deriving DecidableEq

/-- Embedding of `manualTotalCost` (`recommendation-service.js` lines 140-146): each manual
entry contributes `adjustedQty × avgUnitCost` of the matching ideal group, or
nothing when no group matches. -/
def manualTotalCostOf (manualPlan : ManualPlan) (idealPlan : IdealPlan) : ℚ :=
  (manualPlan.formats.map fun f =>
    match idealPlan.formats.find? (fun ideal => ideal.name == f.name) with
    | none => 0
    | some idealFormat => f.adjustedQty * idealFormat.avgUnitCost).sum

/-- Embedding of `manualTotalExposure` (`recommendation-service.js` lines 148-161): uses the
first member face of the matching group as the representative exposure
factor. -/
def manualTotalExposureOf (manualPlan : ManualPlan) (idealPlan : IdealPlan) : ℚ :=
  (manualPlan.formats.map fun f =>
    match idealPlan.formats.find? (fun ideal => ideal.name == f.name) with
    | none => 0
    | some idealFormat =>
        match idealFormat.faces with
        | [] => 0
        | representativeFace :: _ =>
            f.adjustedQty * (getExposureFactor representativeFace.formato
              representativeFace.digital representativeFace.estatico : ℚ)).sum

/-- Embedding of `idealEfficiency` (`recommendation-service.js` lines 166-167):
`idealPlan.efficiency || (totalCost > 0 ? totalExposure/totalCost : 0)`. -/
def idealEfficiencyOf (idealPlan : IdealPlan) : ℚ :=
  if idealPlan.efficiency ≠ 0 then idealPlan.efficiency
  else if 0 < idealPlan.totalCost then idealPlan.totalExposure / idealPlan.totalCost
  else 0

/-- Three-tier status of `calculateEfficiency`. -/
inductive EffStatus
  | efficient
  | acceptable
  | inefficient
deriving DecidableEq

/-- Result record of `calculateEfficiency` (`recommendation-service.js` lines
187-198; the display strings `statusMessage` and `percentageOfIdeal` are not
modelled).  The source's `efficiencyRatio` field is named `effQuot` here. -/
structure EfficiencyMetrics where
  status : EffStatus
  manualEfficiency : ℚ
  idealEfficiency : ℚ
  effQuot : ℚ
  manualTotalCost : ℚ
  manualTotalExposure : ℚ
  idealTotalCost : ℚ
  idealTotalExposure : ℚ
deriving DecidableEq

/-- Embedding of `calculateEfficiency` (`recommendation-service.js` lines 137-207). -/
def calculateEfficiency (manualPlan : ManualPlan) (idealPlan : IdealPlan) :
    EfficiencyMetrics :=
  let manualTotalCost := manualTotalCostOf manualPlan idealPlan
  let manualTotalExposure := manualTotalExposureOf manualPlan idealPlan
  let manualEfficiency :=
    if 0 < manualTotalCost then manualTotalExposure / manualTotalCost else 0
  let idealEfficiency := idealEfficiencyOf idealPlan
  let effQuot := if 0 < idealEfficiency then manualEfficiency / idealEfficiency else 0
  let status : EffStatus :=
    if (95/100 : ℚ) ≤ effQuot then .efficient
    else if (8/10 : ℚ) ≤ effQuot then .acceptable
    else .inefficient
  { status := status
    manualEfficiency := manualEfficiency
    idealEfficiency := idealEfficiency
    effQuot := effQuot
    manualTotalCost := manualTotalCost
    manualTotalExposure := manualTotalExposure
    idealTotalCost := idealPlan.totalCost
    idealTotalExposure := idealPlan.totalExposure }

/-!
## Planning recalculator (`src/public/js/app.js`)
-/

/-- A planning row of the table workflow (`app.js` lines 150-163 plus the
repository columns it reads).  `pesos = 0` encodes a missing weight. -/
structure PlanRow where
  unitario_bruto_tabela : ℚ
  totalFaces : ℚ
  pesos : ℚ
  negociacao_edit : ℚ
  s1_edit : ℚ
  s2_edit : ℚ
  s3_edit : ℚ
  s4_edit : ℚ
  facesUsadas : ℚ
  budgetIdeal : ℚ
  custoFace : ℚ
  ttNeg : ℚ
  totalLinha : ℚ
  index : ℚ
deriving DecidableEq

/-- A planning block: its budget and rows. -/
structure Block where
  budget : ℚ
  planningRows : List PlanRow
deriving DecidableEq

/-- The per-row body of `recalculatePlanningRows` (`app.js` lines 270-286). -/
def recalcRow (row : PlanRow) : PlanRow :=
  let facesUsadas := max (max (max row.s1_edit row.s2_edit) row.s3_edit) row.s4_edit
  let totalLinha := row.unitario_bruto_tabela * facesUsadas
  let disc := row.negociacao_edit
  let custoFace := round2 (row.unitario_bruto_tabela * (1 - disc))
  let ttNeg := round2 (custoFace * facesUsadas)
  let index := round2 (facesUsadas * (if row.pesos = 0 then 1/2 else row.pesos))
  { row with
      facesUsadas := facesUsadas
      totalLinha := totalLinha
      custoFace := custoFace
      ttNeg := ttNeg
      index := index }

/-- The `budgetIdeal` assignment of `recalculatePlanningRows` (`app.js` lines
290-293). -/
def recalcBudgetIdeal (budget totalTabelaValue : ℚ) (row : PlanRow) : PlanRow :=
  let proportion := if 0 < totalTabelaValue then row.totalLinha / totalTabelaValue else 0
  { row with budgetIdeal := (jsRound (budget * proportion) : ℚ) }

/-- Embedding of `recalculatePlanningRows` (`app.js` lines 265-294): recompute every row's
derived fields, then split `budgetIdeal` proportionally to `totalLinha`. -/
def recalculatePlanningRows (block : Block) : Block :=
  let budget := block.budget
  let rows1 := block.planningRows.map recalcRow
  let totalTabelaValue := (rows1.map (·.totalLinha)).sum
  { block with planningRows := rows1.map (recalcBudgetIdeal budget totalTabelaValue) }

/-- The weight of a row as used throughout `autoAllocateFaces`:
`row.pesos || 0.5` (`app.js` lines 211 and 225). -/
def rowWeight (r : PlanRow) : ℚ := if r.pesos = 0 then 1/2 else r.pesos

/-- Total cost at full capacity: the sum of `unitario_bruto_tabela ×
totalFaces` (`app.js` line 190). -/
def totalMaxCost (rows : List PlanRow) : ℚ :=
  (rows.map fun r => r.unitario_bruto_tabela * r.totalFaces).sum

/-- Write the same face count into all four weekly buckets of a row. -/
def setAlloc (row : PlanRow) (q : ℚ) : PlanRow :=
  { row with s1_edit := q, s2_edit := q, s3_edit := q, s4_edit := q }

/-- A row tagged with its array position, as built by
`rows.map((r, i) => ({row: r, idx: i}))` (`app.js` line 215). -/
structure IndexedRow where
  row : PlanRow
  idx : ℕ
deriving DecidableEq

/-- The order realized by the stable sort
`indexed.sort((a, b) => (b.row.pesos || 0) - (a.row.pesos || 0))`
(`app.js` line 216): higher weight first, ties in original order. -/
def rowRel (a b : IndexedRow) : Prop :=
  b.row.pesos < a.row.pesos ∨ (a.row.pesos = b.row.pesos ∧ a.idx ≤ b.idx)

instance : DecidableRel rowRel := fun a b => by
  unfold rowRel; exact inferInstance

instance : IsTotal IndexedRow rowRel := by
  constructor
  intro a b
  rcases lt_trichotomy a.row.pesos b.row.pesos with h | h | h
  · exact Or.inr (Or.inl h)
  · rcases Nat.le_total a.idx b.idx with hi | hi
    · exact Or.inl (Or.inr ⟨h, hi⟩)
    · exact Or.inr (Or.inr ⟨h.symm, hi⟩)
  · exact Or.inl (Or.inl h)

instance : IsTrans IndexedRow rowRel := by
  constructor
  intro a b c hab hbc
  rcases hab with h1 | ⟨e1, i1⟩
  · rcases hbc with h2 | ⟨e2, i2⟩
    · exact Or.inl (h2.trans h1)
    · exact Or.inl (e2 ▸ h1)
  · rcases hbc with h2 | ⟨e2, i2⟩
    · exact Or.inl (e1 ▸ h2)
    · exact Or.inr ⟨e1.trans e2, i1.trans i2⟩

/-- The indexed rows sorted by the stable descending-weight sort
(`app.js` lines 215-216). -/
def sortedIndexed (rows : List PlanRow) : List IndexedRow :=
  ((rows.enum.map fun p => IndexedRow.mk p.2 p.1).insertionSort rowRel)

/-- A sorted row together with the face count allocated to it so far. -/
structure AllocEntry where
  row : PlanRow
  idx : ℕ
  alloc : ℚ
deriving DecidableEq

/-- First pass of `autoAllocateFaces` (`app.js` lines 219-236): give each row
`floor(budget × weightShare / unitPrice)` faces, capped at `totalFaces`,
skipping rows once the remaining budget is exhausted and zero-price rows. -/
def firstPass (budget totalWeight : ℚ) :
    List IndexedRow → ℚ → List AllocEntry × ℚ
  | [], remainingBudget => ([], remainingBudget)
  | ir :: rest, remainingBudget =>
      if remainingBudget ≤ 0 ∨ ir.row.unitario_bruto_tabela ≤ 0 then
        let out := firstPass budget totalWeight rest remainingBudget
        (⟨ir.row, ir.idx, 0⟩ :: out.1, out.2)
      else
        let weightShare := rowWeight ir.row / totalWeight
        let rowBudget := budget * weightShare
        let maxAffordable : ℚ := (⌊rowBudget / ir.row.unitario_bruto_tabela⌋ : ℤ)
        let allocated := min maxAffordable ir.row.totalFaces
        let out := firstPass budget totalWeight rest
          (remainingBudget - ir.row.unitario_bruto_tabela * allocated)
        (⟨ir.row, ir.idx, allocated⟩ :: out.1, out.2)

/-- Second (top-up) pass of `autoAllocateFaces` (`app.js` lines 239-256):
distribute the leftover budget in the same weight order, capped at each row's
remaining capacity, stopping when the leftover reaches zero. -/
def secondPass : List AllocEntry → ℚ → List AllocEntry × ℚ
  | [], remainingBudget => ([], remainingBudget)
  | e :: rest, remainingBudget =>
      if remainingBudget ≤ 0 then (e :: rest, remainingBudget)
      else
        let currentFaces := e.alloc
        let canAdd := e.row.totalFaces - currentFaces
        if 0 < canAdd ∧ 0 < e.row.unitario_bruto_tabela then
          let extraAffordable : ℚ := (⌊remainingBudget / e.row.unitario_bruto_tabela⌋ : ℤ)
          let extra := min extraAffordable canAdd
          if 0 < extra then
            let out := secondPass rest
              (remainingBudget - e.row.unitario_bruto_tabela * extra)
            (⟨e.row, e.idx, e.alloc + extra⟩ :: out.1, out.2)
          else
            let out := secondPass rest remainingBudget
            (e :: out.1, out.2)
        else
          let out := secondPass rest remainingBudget
          (e :: out.1, out.2)

/-- Embedding of `autoAllocateFaces` (`app.js` lines 184-260).  Mutation of the row objects
is modelled by writing each allocation back to the row at its original
position. -/
def autoAllocateFaces (block : Block) : Block :=
  let budget := block.budget
  let rows := block.planningRows
  let tmc := totalMaxCost rows
  if tmc ≤ 0 ∨ budget ≤ 0 then
    recalculatePlanningRows { block with planningRows := rows.map fun r => setAlloc r 0 }
  else if tmc ≤ budget then
    recalculatePlanningRows
      { block with planningRows := rows.map fun r => setAlloc r r.totalFaces }
  else
    let totalWeight := (rows.map rowWeight).sum
    let indexed := sortedIndexed rows
    let pass1 := firstPass budget totalWeight indexed budget
    let final := if 0 < pass1.2 then (secondPass pass1.1 pass1.2).1 else pass1.1
    let newRows := rows.enum.map fun p =>
      match final.find? (fun e => e.idx == p.1) with
      | some e => setAlloc p.2 e.alloc
      | none => p.2
    recalculatePlanningRows { block with planningRows := newRows }

/-!
## Concrete fixtures used by the scenario theorems, counterexamples and
witnesses
-/

/-- The single inventory item of specification Scenario 1. -/
def c7face : Face :=
  { ID := 1, praca := "São Paulo", uf := "SP", exibidores := "X"
    formato := "Relógio de Rua", taxonomia := "T", digital := 0, estatico := 1
    ranking := 0, pesos := 0
    unitario_bruto_negociado := 1000, range_minimo := 10, range_maximo := 20 }

/-- A face with zero minimum quantity but a high score (large maximum
quantity): skipped by the allocator even though its minimum-quantity cost
is 0. -/
def cexA : Face :=
  { ID := 10, praca := "P", uf := "U", exibidores := "E", formato := "F"
    taxonomia := "T", digital := 0, estatico := 1, ranking := 0, pesos := 0
    unitario_bruto_negociado := 100, range_minimo := 0, range_maximo := 100 }

/-- A lower-scored but fundable face. -/
def cexB : Face :=
  { ID := 11, praca := "P", uf := "U", exibidores := "E", formato := "F"
    taxonomia := "T", digital := 0, estatico := 1, ranking := 0, pesos := 0
    unitario_bruto_negociado := 100, range_minimo := 1, range_maximo := 1 }

/-- A face whose negotiated unit price is 0. -/
def zeroPriceFace : Face :=
  { ID := 7, praca := "P", uf := "U", exibidores := "E", formato := "F"
    taxonomia := "T", digital := 0, estatico := 1, ranking := 0, pesos := 0
    unitario_bruto_negociado := 0, range_minimo := 1, range_maximo := 2 }

/-- A fresh planning row with the given table price, capacity and weight. -/
def mkRow (price tf pesos : ℚ) : PlanRow :=
  { unitario_bruto_tabela := price, totalFaces := tf, pesos := pesos
    negociacao_edit := 0, s1_edit := 0, s2_edit := 0, s3_edit := 0, s4_edit := 0
    facesUsadas := 0, budgetIdeal := 0, custoFace := 0, ttNeg := 0
    totalLinha := 0, index := 0 }

/-- Block with a single zero-weight row and a budget below full capacity. -/
def c8Block : Block := { budget := 300, planningRows := [mkRow 100 5 0] }

/-- Two-row block with nonnegative weights and a budget below full capacity. -/
def c10Block : Block :=
  { budget := 150, planningRows := [mkRow 100 1 (3/4), mkRow 100 1 (1/4)] }

/-- An ideal plan with zero total cost and zero efficiency. -/
def ipZero : IdealPlan :=
  { formats := [{ name := "A", recommendedQty := 2, totalCost := 0, avgUnitCost := 5
                  totalExposure := 0, faces := [] }]
    totalCost := 0, totalExposure := 0, efficiency := 0 }

/-- A manual plan with quantity 0 for every format. -/
def mpZero : ManualPlan := { formats := [{ name := "A", adjustedQty := 0 }] }

/-- Block used to witness the recalculation claims. -/
def c9Block : Block :=
  { budget := 1000
    planningRows := [
      { mkRow 123 7 (1/3) with
          s1_edit := 2, s2_edit := 5, s3_edit := 1, s4_edit := 4
          negociacao_edit := 7/100 }] }

/-- The row of `c9Block` after one recalculation. -/
def c9row : PlanRow :=
  { unitario_bruto_tabela := 123, totalFaces := 7, pesos := 1/3, negociacao_edit := 7/100
    s1_edit := 2, s2_edit := 5, s3_edit := 1, s4_edit := 4
    facesUsadas := 5, budgetIdeal := 1000, custoFace := 11439/100, ttNeg := 11439/20
    totalLinha := 615, index := 167/100 }

end OOH

namespace OOH

/-!
## Claim theorems
-/

/-- Claim C7: (Scenario 1).  For budget 50000, campaign cycle 4 and the single
item with negotiated price 1000, minimum quantity 10, maximum quantity 20, a
non-matching format and digital flag 0, `optimizeAllocation` allocates 10000,
commits 10 faces, leaves 40000, reports an ideal budget of 10000 (the
75th-percentile subset rounds up to the one item) and classifies the budget
as `excessive` because `50000 > 1.5 × 10000`. -/
theorem single_item_case :
    (optimizeAllocation 50000 4 [c7face]).allocatedOf = some 10000 ∧
    (optimizeAllocation 50000 4 [c7face]).facesCountOf = some 10 ∧
    (optimizeAllocation 50000 4 [c7face]).remainingOf = some 40000 ∧
    (optimizeAllocation 50000 4 [c7face]).idealOf = some 10000 ∧
    (optimizeAllocation 50000 4 [c7face]).statusOf = some .excessive := by
  refine ⟨?_, ?_, ?_, ?_, ?_⟩ <;> with_unfolding_all rfl

/-- Claim C5 counterexample:.  On the format string `"Metrô"` the source returns
45000 (it additionally matches the accented substring `metrô`), whereas the
table exactly as listed by the specification falls through to the static
default 12000: the claim that `getExposureFactor` returns exactly the listed
table's value fails. -/
theorem exposure_table_cex :
    getExposureFactor "Metrô" 0 0 = 45000 ∧
      exposureLookup specExposureTable "Metrô" false = 12000 ∧
      (45000 : ℕ) ≠ 12000 :=
  ⟨by with_unfolding_all rfl, by with_unfolding_all rfl, by decide⟩

/-- Claim C5 amended:.  For every format string and flags, `getExposureFactor`
returns exactly the value of the specification's table once that table is
amended with the accent/space variants the source also matches
(`metrô → 45000`, `ônibus → 20000|25000`, `back bus → 18000`,
`back seat → 8000`): case-insensitive substring match in the listed order,
the digital flag selecting 25000 vs 20000 for bus-shelter-like formats and
28000 vs 18000 for totem, and unmatched formats falling back to 15000 when
digital else 12000. -/
theorem exposure_table_amended (formato : String) (digital estatico : ℚ) :
    getExposureFactor formato digital estatico =
      exposureLookup specExposureTableAmended formato (decide (digital ≠ 0)) := by
  simp only [getExposureFactor, exposureLookup, specExposureTableAmended,
    List.any_cons, List.any_nil, Bool.or_false, Bool.or_assoc]

/-- Claim C5 witness: for the amended theorem: evaluated at a digital bus-shelter
format. -/
theorem exposure_table_witness :
    getExposureFactor "Abrigo de Ônibus" 1 0 =
        exposureLookup specExposureTableAmended "Abrigo de Ônibus" (decide ((1 : ℚ) ≠ 0)) ∧
      getExposureFactor "Abrigo de Ônibus" 1 0 = 25000 :=
  ⟨exposure_table_amended "Abrigo de Ônibus" 1 0, by with_unfolding_all rfl⟩

/-- Claim C4 counterexample:.  `optimizeAllocation` called with budget 0 (≤ 0)
and a non-empty inventory does not surface a structured error: it returns a
numeric allocation result with status `insufficient`. -/
theorem input_validation_cex :
    (optimizeAllocation 0 4 [c7face]).statusOf = some .insufficient ∧
      (optimizeAllocation 0 4 [c7face]).isErr = false := by
  refine ⟨?_, ?_⟩ <;> with_unfolding_all rfl

/-- Claim C4 amended:.  `optimizeAllocation` validates only the inventory: an
empty inventory is surfaced as the structured error result, while budget ≤ 0
or campaignCycle ≤ 0 is not rejected — every call with non-empty inventory
returns a numeric allocation result (and never an exception, the embedding
being total). -/
theorem input_validation_amended :
    (∀ (budget campaignCycle : ℚ) (inventory : List Face), inventory ≠ [] →
        ∃ r, optimizeAllocation budget campaignCycle inventory = .ok r) ∧
      ∀ budget campaignCycle : ℚ, optimizeAllocation budget campaignCycle [] = .error := by
  constructor
  · intro budget campaignCycle inventory hne
    unfold optimizeAllocation
    rw [if_neg hne]
    exact ⟨_, rfl⟩
  · intro budget campaignCycle
    unfold optimizeAllocation
    rw [if_pos rfl]

/-- Claim C4 witness:: a negative budget with a one-item inventory still yields a
numeric result; the empty inventory yields the error. -/
theorem input_validation_witness :
    (∃ r, optimizeAllocation (-5) 4 [c7face] = .ok r) ∧
      optimizeAllocation (-5) 4 [] = .error :=
  ⟨input_validation_amended.1 (-5) 4 [c7face] (by simp),
    input_validation_amended.2 (-5) 4⟩

/-- Claim C3: (code bug evidence).  For a face with negotiated unit price 0 the
scoring expression evaluates to `Infinity` (`10000 / 0`), the face is *not*
excluded — the allocator selects it, since its minimum-quantity cost is 0 —
and the non-finite score is carried into the selected face, contradicting the
specification's arithmetic guard. -/
theorem zero_price_roi_infinite :
    calculateROIJS zeroPriceFace 4 = JNum.inf ∧
      (allocateBudgetToFaces 50000 [zeroPriceFace] 4).selectedFaces.map
          (fun s => s.srcIdx) = [0] ∧
      (allocateBudgetToFaces 50000 [zeroPriceFace] 4).remainingBudget = 50000 :=
  ⟨by with_unfolding_all rfl, by with_unfolding_all rfl, by with_unfolding_all rfl⟩

/-- Claim C6:.  `calculateEfficiency` returns quotient 0 whenever the ideal
efficiency is 0 and manual efficiency 0 whenever the manual total cost is 0,
never raising a division error (the embedding is total); in particular a
manual plan with quantity 0 for every format yields manual total cost 0,
manual efficiency 0, efficiency quotient 0 and status `inefficient`. -/
theorem efficiency_bound (manualPlan : ManualPlan) (idealPlan : IdealPlan) :
    (idealEfficiencyOf idealPlan = 0 →
      (calculateEfficiency manualPlan idealPlan).effQuot = 0) ∧
    (manualTotalCostOf manualPlan idealPlan = 0 →
      (calculateEfficiency manualPlan idealPlan).manualEfficiency = 0) ∧
    ((∀ f ∈ manualPlan.formats, f.adjustedQty = 0) →
      (calculateEfficiency manualPlan idealPlan).manualTotalCost = 0 ∧
      (calculateEfficiency manualPlan idealPlan).manualEfficiency = 0 ∧
      (calculateEfficiency manualPlan idealPlan).effQuot = 0 ∧
      (calculateEfficiency manualPlan idealPlan).status = .inefficient) := by
  have hcost : (∀ f ∈ manualPlan.formats, f.adjustedQty = 0) →
      manualTotalCostOf manualPlan idealPlan = 0 := by
    intro hq
    unfold manualTotalCostOf
    apply List.sum_eq_zero
    intro x hx
    obtain ⟨f, hf, rfl⟩ := List.mem_map.mp hx
    cases idealPlan.formats.find? (fun ideal => ideal.name == f.name) with
    | none => rfl
    | some g => simp [hq f hf]
  refine ⟨?_, ?_, ?_⟩
  · intro h
    simp only [calculateEfficiency, h]
    norm_num
  · intro h
    simp only [calculateEfficiency, h]
    norm_num
  · intro hq
    have h0 := hcost hq
    refine ⟨h0, ?_, ?_, ?_⟩
    · simp only [calculateEfficiency, h0]
      norm_num
    · simp only [calculateEfficiency, h0]
      norm_num
    · simp only [calculateEfficiency, h0]
      norm_num

theorem rounding_stability (block : Block) :
    recalculatePlanningRows (recalculatePlanningRows block) = recalculatePlanningRows block ∧
    ∀ row ∈ (recalculatePlanningRows block).planningRows,
      row.facesUsadas = max (max (max row.s1_edit row.s2_edit) row.s3_edit) row.s4_edit ∧
      row.totalLinha = row.unitario_bruto_tabela * row.facesUsadas ∧
      row.custoFace = round2 (row.unitario_bruto_tabela * (1 - row.negociacao_edit)) ∧
      row.ttNeg = round2 (row.custoFace * row.facesUsadas) := by
  have h1 : ∀ (t : ℚ) (r : PlanRow),
      recalcRow (recalcBudgetIdeal block.budget t (recalcRow r)) =
        recalcBudgetIdeal block.budget t (recalcRow r) := fun _ _ => rfl
  have h2 : ∀ (t : ℚ) (r : PlanRow),
      (recalcBudgetIdeal block.budget t r).totalLinha = r.totalLinha := fun _ _ => rfl
  have h4 : ∀ (t : ℚ) (r : PlanRow),
      recalcBudgetIdeal block.budget t (recalcBudgetIdeal block.budget t r) =
        recalcBudgetIdeal block.budget t r := fun _ _ => rfl
  constructor
  · simp only [recalculatePlanningRows, List.map_map, Function.comp_def]
    simp only [h1, h2, h4]
  · intro row hrow
    simp only [recalculatePlanningRows, List.map_map, List.mem_map] at hrow
    obtain ⟨x, hx, rfl⟩ := hrow
    exact ⟨rfl, rfl, rfl, rfl⟩

/-- Claim C9 witness:: the formulas evaluated on a concrete recalculated row. -/
theorem rounding_stability_witness :
    c9row ∈ (recalculatePlanningRows c9Block).planningRows ∧
      (c9row.facesUsadas = max (max (max c9row.s1_edit c9row.s2_edit) c9row.s3_edit)
          c9row.s4_edit ∧
        c9row.totalLinha = c9row.unitario_bruto_tabela * c9row.facesUsadas ∧
        c9row.custoFace = round2 (c9row.unitario_bruto_tabela * (1 - c9row.negociacao_edit)) ∧
        c9row.ttNeg = round2 (c9row.custoFace * c9row.facesUsadas)) :=
  have hm : c9row ∈ (recalculatePlanningRows c9Block).planningRows := by
    have h : (recalculatePlanningRows c9Block).planningRows = [c9row] := by
      with_unfolding_all rfl
    rw [h]
    exact List.mem_singleton.mpr rfl
  ⟨hm, (rounding_stability c9Block).2 c9row hm⟩

/-- Claim C6 witness:: the zero-quantity manual plan against a zero-efficiency
ideal plan. -/
theorem efficiency_bound_witness :
    (calculateEfficiency mpZero ipZero).effQuot = 0 ∧
      (calculateEfficiency mpZero ipZero).manualEfficiency = 0 ∧
      (calculateEfficiency mpZero ipZero).status = .inefficient :=
  ⟨(efficiency_bound mpZero ipZero).1 (by with_unfolding_all rfl),
    (efficiency_bound mpZero ipZero).2.1 (by with_unfolding_all rfl),
    ((efficiency_bound mpZero ipZero).2.2 (by decide)).2.2.2⟩

/-- Invariant of the greedy loop: the remaining budget stays nonnegative, and
the running `facesCount` equals the accumulated committed quantities. -/
theorem allocGo_invariant (L : List ScoredFace) (rem : ℚ) (sel : List SelectedFace) (cnt : ℚ) :
    (0 ≤ rem → 0 ≤ (allocGo L rem sel cnt).2.1) ∧
      (allocGo L rem sel cnt).2.2 + (sel.map (fun s => s.quantity)).sum =
        cnt + ((allocGo L rem sel cnt).1.map (fun s => s.quantity)).sum := by
  induction L generalizing rem sel cnt with
  | nil => simp [allocGo]
  | cons f rest ih =>
    simp only [allocGo]
    by_cases hc : parseNumber f.face.unitario_bruto_negociado *
        parseNumber f.face.range_minimo ≤ rem ∧ 0 < parseNumber f.face.range_minimo
    · simp only [if_pos hc]
      have hrem : 0 ≤ rem → 0 ≤ rem - parseNumber f.face.unitario_bruto_negociado *
          parseNumber f.face.range_minimo := fun _ => sub_nonneg.mpr hc.1
      by_cases hb : rem - parseNumber f.face.unitario_bruto_negociado *
          parseNumber f.face.range_minimo < 1000
      · simp only [if_pos hb]
        refine ⟨hrem, ?_⟩
        have hq : ∀ (g : ScoredFace) (a b c : ℚ) (n : ℕ),
            (mkSelected g a b c n).quantity = a := fun _ _ _ _ _ => rfl
        simp only [List.map_append, List.sum_append, List.map_cons, List.map_nil,
          List.sum_cons, List.sum_nil, hq]
        ring
      · simp only [if_neg hb]
        obtain ⟨ih1, ih2⟩ := ih (rem - parseNumber f.face.unitario_bruto_negociado *
            parseNumber f.face.range_minimo)
          (sel ++ [mkSelected f (parseNumber f.face.range_minimo)
            (parseNumber f.face.unitario_bruto_negociado)
            (parseNumber f.face.unitario_bruto_negociado * parseNumber f.face.range_minimo)
            (sel.length + 1)])
          (cnt + parseNumber f.face.range_minimo)
        refine ⟨fun h0 => ih1 (hrem h0), ?_⟩
        have hq : ∀ (g : ScoredFace) (a b c : ℚ) (n : ℕ),
            (mkSelected g a b c n).quantity = a := fun _ _ _ _ _ => rfl
        simp only [List.map_append, List.sum_append, List.map_cons, List.map_nil,
          List.sum_cons, List.sum_nil, hq] at ih2
        linarith [ih2]
    · simp only [if_neg hc]
      by_cases hb : rem < 1000
      · simp only [if_pos hb]
        exact ⟨fun h0 => h0, by ring_nf⟩
      · simp only [if_neg hb]
        exact ih rem sel cnt

/-- Claim C1:.  For every nonnegative budget (the specification's valid inputs
have `budget > 0`), campaign cycle and non-empty inventory, the allocation
satisfies `allocatedBudget + remainingBudget = budget` exactly,
`allocatedBudget ≤ budget`, `remainingBudget ≥ 0`, and `facesCount` equals the
sum of the committed minimum quantities of the selected faces; and
`optimizeAllocation` returns a success result carrying exactly these
figures. -/
theorem budget_conservation (budget campaignCycle : ℚ) (inventory : List Face)
    (hb : 0 ≤ budget) (hne : inventory ≠ []) :
    (allocateBudgetToFaces budget inventory campaignCycle).allocatedBudget +
        (allocateBudgetToFaces budget inventory campaignCycle).remainingBudget = budget ∧
      (allocateBudgetToFaces budget inventory campaignCycle).allocatedBudget ≤ budget ∧
      0 ≤ (allocateBudgetToFaces budget inventory campaignCycle).remainingBudget ∧
      (allocateBudgetToFaces budget inventory campaignCycle).facesCount =
        ((allocateBudgetToFaces budget inventory campaignCycle).selectedFaces.map
          (fun s => s.quantity)).sum ∧
      ∃ r, optimizeAllocation budget campaignCycle inventory = .ok r ∧
        r.allocatedBudget =
          (allocateBudgetToFaces budget inventory campaignCycle).allocatedBudget ∧
        r.remainingBudget =
          (allocateBudgetToFaces budget inventory campaignCycle).remainingBudget ∧
        r.facesCount = (allocateBudgetToFaces budget inventory campaignCycle).facesCount := by
  obtain ⟨h1, h2⟩ := allocGo_invariant (prioritizeFaces inventory campaignCycle) budget [] 0
  have hnn := h1 hb
  simp only [allocateBudgetToFaces]
  refine ⟨by ring, by linarith, hnn, ?_, ?_⟩
  · simpa using h2
  · unfold optimizeAllocation
    rw [if_neg hne]
    exact ⟨_, rfl, rfl, rfl, rfl⟩

/-- Claim C1 witness:: the conservation identities at the scenario-1 input. -/
theorem budget_conservation_witness :
    (allocateBudgetToFaces 50000 [c7face] 4).allocatedBudget +
        (allocateBudgetToFaces 50000 [c7face] 4).remainingBudget = 50000 ∧
      (allocateBudgetToFaces 50000 [c7face] 4).allocatedBudget ≤ 50000 ∧
      0 ≤ (allocateBudgetToFaces 50000 [c7face] 4).remainingBudget ∧
      (allocateBudgetToFaces 50000 [c7face] 4).facesCount =
        ((allocateBudgetToFaces 50000 [c7face] 4).selectedFaces.map
          (fun s => s.quantity)).sum ∧
      ∃ r, optimizeAllocation 50000 4 [c7face] = .ok r ∧
        r.allocatedBudget = (allocateBudgetToFaces 50000 [c7face] 4).allocatedBudget ∧
        r.remainingBudget = (allocateBudgetToFaces 50000 [c7face] 4).remainingBudget ∧
        r.facesCount = (allocateBudgetToFaces 50000 [c7face] 4).facesCount :=
  budget_conservation 50000 4 [c7face] (by norm_num) (by simp)

/-- The greedy loop only appends to the selection, and what it appends comes
from the ranked list in order (as `(srcIdx, roi)` keys, a sublist). -/
theorem allocGo_sel_structure (L : List ScoredFace) (rem : ℚ) (sel : List SelectedFace)
    (cnt : ℚ) :
    ∃ extra, (allocGo L rem sel cnt).1 = sel ++ extra ∧
      List.Sublist (extra.map (fun s => (s.srcIdx, s.roi))) (L.map (fun f => (f.idx, f.roi))) := by
  induction L generalizing rem sel cnt with
  | nil => exact ⟨[], by simp [allocGo], by simp⟩
  | cons f rest ih =>
    simp only [allocGo]
    by_cases hc : parseNumber f.face.unitario_bruto_negociado *
        parseNumber f.face.range_minimo ≤ rem ∧ 0 < parseNumber f.face.range_minimo
    · simp only [if_pos hc]
      set x := mkSelected f (parseNumber f.face.range_minimo)
        (parseNumber f.face.unitario_bruto_negociado)
        (parseNumber f.face.unitario_bruto_negociado * parseNumber f.face.range_minimo)
        (sel.length + 1) with hx
      by_cases hb : rem - parseNumber f.face.unitario_bruto_negociado *
          parseNumber f.face.range_minimo < 1000
      · simp only [if_pos hb]
        refine ⟨[x], rfl, ?_⟩
        simp only [List.map_cons, List.map_nil]
        exact (List.nil_sublist _).cons₂ _
      · simp only [if_neg hb]
        obtain ⟨extra, he, hs⟩ := ih (rem - parseNumber f.face.unitario_bruto_negociado *
            parseNumber f.face.range_minimo) (sel ++ [x]) (cnt + parseNumber f.face.range_minimo)
        refine ⟨x :: extra, by simpa using he, ?_⟩
        simp only [List.map_cons]
        exact hs.cons₂ _
    · simp only [if_neg hc]
      by_cases hb : rem < 1000
      · simp only [if_pos hb]
        exact ⟨[], by simp, by simp⟩
      · simp only [if_neg hb]
        obtain ⟨extra, he, hs⟩ := ih rem sel cnt
        exact ⟨extra, he, hs.cons _⟩

/-- Priorities recorded by the greedy loop are the 1-based selection
positions. -/
theorem allocGo_priorities (L : List ScoredFace) (rem : ℚ) (sel : List SelectedFace) (cnt : ℚ)
    (hsel : ∀ (i : ℕ) (s : SelectedFace), sel[i]? = some s → s.priority = i + 1) :
    ∀ (i : ℕ) (s : SelectedFace), (allocGo L rem sel cnt).1[i]? = some s → s.priority = i + 1 := by
  induction L generalizing rem sel cnt with
  | nil => simpa [allocGo] using hsel
  | cons f rest ih =>
    simp only [allocGo]
    by_cases hc : parseNumber f.face.unitario_bruto_negociado *
        parseNumber f.face.range_minimo ≤ rem ∧ 0 < parseNumber f.face.range_minimo
    · simp only [if_pos hc]
      have hsel' : ∀ (i : ℕ) (s : SelectedFace),
          (sel ++ [mkSelected f (parseNumber f.face.range_minimo)
            (parseNumber f.face.unitario_bruto_negociado)
            (parseNumber f.face.unitario_bruto_negociado * parseNumber f.face.range_minimo)
            (sel.length + 1)])[i]? = some s → s.priority = i + 1 := by
        intro i s hi
        rcases Nat.lt_or_ge i sel.length with hlt | hge
        · rw [List.getElem?_append_left hlt] at hi
          exact hsel i s hi
        · rw [List.getElem?_append_right hge] at hi
          rcases Nat.lt_or_ge i (sel.length + 1) with hlt1 | hge1
          · have hie : i = sel.length := Nat.le_antisymm (Nat.lt_succ_iff.mp hlt1) hge
            subst hie
            simp only [Nat.sub_self, List.getElem?_cons_zero, Option.some.injEq] at hi
            subst hi
            rfl
          · have : 1 ≤ i - sel.length := by omega
            rcases Nat.exists_eq_add_of_le this with ⟨k, hk⟩
            have hk' : i - sel.length = k + 1 := by omega
            rw [hk'] at hi
            simp only [List.getElem?_cons_succ, List.getElem?_nil] at hi
            exact absurd hi (by simp)
      by_cases hb : rem - parseNumber f.face.unitario_bruto_negociado *
          parseNumber f.face.range_minimo < 1000
      · simp only [if_pos hb]
        exact hsel'
      · simp only [if_neg hb]
        exact ih _ _ _ hsel'
    · simp only [if_neg hc]
      by_cases hb : rem < 1000
      · simp only [if_pos hb]
        exact hsel
      · simp only [if_neg hb]
        exact ih _ _ _ hsel

/-- Remaining budget never grows (prices are nonnegative), and whenever a
later-ranked item is funded while an earlier-ranked item is not, the skipped
item either has a nonpositive minimum quantity or its minimum-quantity cost
exceeds the final remaining budget. -/
theorem allocGo_skip (L : List ScoredFace) (rem : ℚ) (sel : List SelectedFace) (cnt : ℚ)
    (hp : ∀ f ∈ L, 0 ≤ f.face.unitario_bruto_negociado)
    (hdisj : ∀ f ∈ L, ∀ s ∈ sel, s.srcIdx ≠ f.idx)
    (hnodup : (L.map (fun f => f.idx)).Nodup) :
    (allocGo L rem sel cnt).2.1 ≤ rem ∧
      ∀ (j i : ℕ) (a b : ScoredFace), L[j]? = some a → L[i]? = some b → j < i →
        (∃ s ∈ (allocGo L rem sel cnt).1, s.srcIdx = b.idx) →
        (∀ s ∈ (allocGo L rem sel cnt).1, s.srcIdx ≠ a.idx) →
        a.face.range_minimo ≤ 0 ∨
          (allocGo L rem sel cnt).2.1 <
            a.face.unitario_bruto_negociado * a.face.range_minimo := by
  induction L generalizing rem sel cnt with
  | nil =>
    refine ⟨by simp [allocGo], ?_⟩
    intro j i a b ha
    simp at ha
  | cons f rest ih =>
    have hpf : 0 ≤ f.face.unitario_bruto_negociado := hp f (List.mem_cons_self f rest)
    have hprest : ∀ g ∈ rest, 0 ≤ g.face.unitario_bruto_negociado :=
      fun g hg => hp g (List.mem_cons_of_mem f hg)
    simp only [List.map_cons, List.nodup_cons] at hnodup
    obtain ⟨hno1, hno2⟩ := hnodup
    simp only [allocGo]
    by_cases hc : parseNumber f.face.unitario_bruto_negociado *
        parseNumber f.face.range_minimo ≤ rem ∧ 0 < parseNumber f.face.range_minimo
    · simp only [if_pos hc]
      have hcost : 0 ≤ parseNumber f.face.unitario_bruto_negociado *
          parseNumber f.face.range_minimo := mul_nonneg hpf (le_of_lt hc.2)
      set x := mkSelected f (parseNumber f.face.range_minimo)
        (parseNumber f.face.unitario_bruto_negociado)
        (parseNumber f.face.unitario_bruto_negociado * parseNumber f.face.range_minimo)
        (sel.length + 1) with hxdef
      have hxidx : x.srcIdx = f.idx := rfl
      by_cases hb : rem - parseNumber f.face.unitario_bruto_negociado *
          parseNumber f.face.range_minimo < 1000
      · simp only [if_pos hb]
        refine ⟨by linarith, ?_⟩
        intro j i a b ha hbg hji hfund _hskip
        obtain ⟨i', rfl⟩ : ∃ i', i = i' + 1 := ⟨i - 1, by omega⟩
        simp only [List.getElem?_cons_succ] at hbg
        have hbmem : b ∈ rest := List.getElem?_mem hbg
        obtain ⟨s, hs, hsidx⟩ := hfund
        rcases List.mem_append.mp hs with hs | hs
        · exact absurd hsidx (hdisj b (List.mem_cons_of_mem f hbmem) s hs)
        · have hsx : s = x := by simpa using hs
          subst hsx
          rw [hxidx] at hsidx
          exact absurd (hsidx ▸ List.mem_map_of_mem (fun g => g.idx) hbmem) hno1
      · simp only [if_neg hb]
        have hdisj' : ∀ g ∈ rest, ∀ s ∈ sel ++ [x], s.srcIdx ≠ g.idx := by
          intro g hg s hs
          rcases List.mem_append.mp hs with hs | hs
          · exact hdisj g (List.mem_cons_of_mem f hg) s hs
          · have hsx : s = x := by simpa using hs
            subst hsx
            rw [hxidx]
            intro he
            exact hno1 (he ▸ List.mem_map_of_mem (fun g => g.idx) hg)
        obtain ⟨ih1, ih2⟩ := ih (rem - parseNumber f.face.unitario_bruto_negociado *
            parseNumber f.face.range_minimo) (sel ++ [x])
          (cnt + parseNumber f.face.range_minimo) hprest hdisj' hno2
        refine ⟨by linarith, ?_⟩
        intro j i a b ha hbg hji hfund hskip
        obtain ⟨extra, hout, _⟩ := allocGo_sel_structure rest
          (rem - parseNumber f.face.unitario_bruto_negociado *
            parseNumber f.face.range_minimo) (sel ++ [x])
          (cnt + parseNumber f.face.range_minimo)
        cases j with
        | zero =>
          simp only [List.getElem?_cons_zero, Option.some.injEq] at ha
          subst ha
          have hxin : x ∈ (allocGo rest (rem - parseNumber f.face.unitario_bruto_negociado *
              parseNumber f.face.range_minimo) (sel ++ [x])
              (cnt + parseNumber f.face.range_minimo)).1 := by
            rw [hout]
            exact List.mem_append.mpr (Or.inl (List.mem_append.mpr (Or.inr (by simp))))
          exact absurd hxidx (hskip x hxin)
        | succ j' =>
          obtain ⟨i', rfl⟩ : ∃ i', i = i' + 1 := ⟨i - 1, by omega⟩
          simp only [List.getElem?_cons_succ] at ha hbg
          exact ih2 j' i' a b ha hbg (by omega) hfund hskip
    · simp only [if_neg hc]
      by_cases hb : rem < 1000
      · simp only [if_pos hb]
        refine ⟨le_refl rem, ?_⟩
        intro j i a b ha hbg hji hfund _hskip
        obtain ⟨s, hs, hsidx⟩ := hfund
        have hbmem : b ∈ f :: rest := List.getElem?_mem hbg
        exact absurd hsidx (hdisj b hbmem s hs)
      · simp only [if_neg hb]
        obtain ⟨ih1, ih2⟩ := ih rem sel cnt hprest
          (fun g hg s hs => hdisj g (List.mem_cons_of_mem f hg) s hs) hno2
        refine ⟨ih1, ?_⟩
        intro j i a b ha hbg hji hfund hskip
        cases j with
        | zero =>
          simp only [List.getElem?_cons_zero, Option.some.injEq] at ha
          subst ha
          rcases not_and_or.mp hc with hcc | hcc
          · push_neg at hcc
            right
            calc (allocGo rest rem sel cnt).2.1 ≤ rem := ih1
              _ < _ := hcc
          · left
            exact le_of_not_lt hcc
        | succ j' =>
          obtain ⟨i', rfl⟩ : ∃ i', i = i' + 1 := ⟨i - 1, by omega⟩
          simp only [List.getElem?_cons_succ] at ha hbg
          exact ih2 j' i' a b ha hbg (by omega) hfund hskip

/-- Claim C2 counterexample:.  `cexA` outranks `cexB` (score 30 vs 20.2) yet is
skipped — its minimum quantity is 0 — while the lower-scored `cexB` is funded,
even though `cexA`'s minimum-quantity cost (0) fits the remaining budget
(900): the claim as stated fails. -/
theorem funding_order_cex :
    calculateROI cexB 1 < calculateROI cexA 1 ∧
      (prioritizeFaces [cexA, cexB] 1).map (fun f => f.idx) = [0, 1] ∧
      (allocateBudgetToFaces 1000 [cexA, cexB] 1).selectedFaces.map (fun s => s.srcIdx) = [1] ∧
      cexA.unitario_bruto_negociado * cexA.range_minimo ≤
        (allocateBudgetToFaces 1000 [cexA, cexB] 1).remainingBudget := by
  have ha : calculateROI cexA 1 = 30 := by with_unfolding_all rfl
  have hb : calculateROI cexB 1 = 101/5 := by with_unfolding_all rfl
  have hr : (allocateBudgetToFaces 1000 [cexA, cexB] 1).remainingBudget = 900 := by
    with_unfolding_all rfl
  have hcost : cexA.unitario_bruto_negociado * cexA.range_minimo = 0 := by
    with_unfolding_all rfl
  refine ⟨?_, ?_, ?_, ?_⟩
  · rw [ha, hb]; norm_num
  · with_unfolding_all rfl
  · with_unfolding_all rfl
  · rw [hcost, hr]; norm_num

/-- Claim C2 amended:.  For inventories with nonnegative negotiated prices (the
data-model invariant): the ranked list is in non-increasing score order with
ties in original input order; committed faces are in non-increasing score
order, a subsequence of the ranked list; each committed face's priority is its
1-based selection position; and no lower-scored item is funded while a
higher-scored item *with positive minimum quantity* whose minimum-quantity
cost fits the remaining budget is skipped. -/
theorem funding_order_amended (budget campaignCycle : ℚ) (inventory : List Face)
    (hp : ∀ f ∈ inventory, 0 ≤ f.unitario_bruto_negociado) :
    List.Pairwise (fun a b => b.roi ≤ a.roi ∧ (a.roi = b.roi → a.idx ≤ b.idx))
        (prioritizeFaces inventory campaignCycle) ∧
      List.Pairwise (fun s t => t.roi ≤ s.roi)
        (allocateBudgetToFaces budget inventory campaignCycle).selectedFaces ∧
      List.Sublist
        ((allocateBudgetToFaces budget inventory campaignCycle).selectedFaces.map
          (fun s => (s.srcIdx, s.roi)))
        ((prioritizeFaces inventory campaignCycle).map (fun f => (f.idx, f.roi))) ∧
      (∀ (i : ℕ) (s : SelectedFace),
        (allocateBudgetToFaces budget inventory campaignCycle).selectedFaces[i]? = some s →
          s.priority = i + 1) ∧
      (∀ (j i : ℕ) (a b : ScoredFace),
        (prioritizeFaces inventory campaignCycle)[j]? = some a →
        (prioritizeFaces inventory campaignCycle)[i]? = some b → j < i →
        (∃ s ∈ (allocateBudgetToFaces budget inventory campaignCycle).selectedFaces,
          s.srcIdx = b.idx) →
        (∀ s ∈ (allocateBudgetToFaces budget inventory campaignCycle).selectedFaces,
          s.srcIdx ≠ a.idx) →
        a.face.range_minimo ≤ 0 ∨
          (allocateBudgetToFaces budget inventory campaignCycle).remainingBudget <
            a.face.unitario_bruto_negociado * a.face.range_minimo) := by
  have hsorted : List.Sorted rankRel (prioritizeFaces inventory campaignCycle) :=
    List.sorted_insertionSort rankRel _
  have hperm : List.Perm (prioritizeFaces inventory campaignCycle)
      (inventory.enum.map fun p =>
        { face := p.2
          roi := calculateROI p.2 campaignCycle
          unitPrice := parseNumber p.2.unitario_bruto_negociado
          idx := p.1 : ScoredFace }) :=
    List.perm_insertionSort rankRel _
  have hP1 : List.Pairwise (fun a b => b.roi ≤ a.roi ∧ (a.roi = b.roi → a.idx ≤ b.idx))
      (prioritizeFaces inventory campaignCycle) := by
    refine hsorted.imp ?_
    intro a b hab
    rcases hab with h | ⟨he, hi⟩
    · exact ⟨le_of_lt h, fun he => ((lt_irrefl _ (he ▸ h)).elim)⟩
    · exact ⟨le_of_eq he.symm, fun _ => hi⟩
  have hpL : ∀ f ∈ prioritizeFaces inventory campaignCycle,
      0 ≤ f.face.unitario_bruto_negociado := by
    intro f hf
    have hmem := hperm.mem_iff.mp hf
    obtain ⟨p, hp2, rfl⟩ := List.mem_map.mp hmem
    have hpm : inventory[p.1]? = some p.2 := List.mem_enum_iff_getElem?.mp hp2
    exact hp p.2 (List.getElem?_mem hpm)
  have hnodup : ((prioritizeFaces inventory campaignCycle).map (fun f => f.idx)).Nodup := by
    have hpm := hperm.map (fun f => f.idx)
    refine hpm.nodup_iff.mpr ?_
    rw [List.map_map]
    exact List.nodup_enum_map_fst inventory
  obtain ⟨extra, he, hs⟩ := allocGo_sel_structure
    (prioritizeFaces inventory campaignCycle) budget [] 0
  have hsel : (allocateBudgetToFaces budget inventory campaignCycle).selectedFaces =
      (allocGo (prioritizeFaces inventory campaignCycle) budget [] 0).1 := rfl
  have hsub : List.Sublist
      ((allocateBudgetToFaces budget inventory campaignCycle).selectedFaces.map
        (fun s => (s.srcIdx, s.roi)))
      ((prioritizeFaces inventory campaignCycle).map (fun f => (f.idx, f.roi))) := by
    rw [hsel, he]
    simpa using hs
  have hP2 : List.Pairwise (fun s t => t.roi ≤ s.roi)
      (allocateBudgetToFaces budget inventory campaignCycle).selectedFaces := by
    have h1 : List.Pairwise (fun (p q : ℕ × ℚ) => q.2 ≤ p.2)
        ((prioritizeFaces inventory campaignCycle).map (fun f => (f.idx, f.roi))) := by
      rw [List.pairwise_map]
      exact hP1.imp (fun h => h.1)
    have h2 := h1.sublist hsub
    rw [List.pairwise_map] at h2
    exact h2
  refine ⟨hP1, hP2, hsub, ?_, ?_⟩
  · rw [hsel]
    exact allocGo_priorities _ _ _ _ (by intro i s hi; simp at hi)
  · obtain ⟨h1, h2⟩ := allocGo_skip (prioritizeFaces inventory campaignCycle) budget [] 0
      hpL (by intro g hg s hs; simp at hs) hnodup
    exact h2

/-- Claim C2 witness:: the amended properties at a concrete two-item inventory. -/
theorem funding_order_witness :
    List.Pairwise (fun a b => b.roi ≤ a.roi ∧ (a.roi = b.roi → a.idx ≤ b.idx))
        (prioritizeFaces [cexA, cexB] 1) ∧
      List.Pairwise (fun s t => t.roi ≤ s.roi)
        (allocateBudgetToFaces 1000 [cexA, cexB] 1).selectedFaces ∧
      List.Sublist
        ((allocateBudgetToFaces 1000 [cexA, cexB] 1).selectedFaces.map
          (fun s => (s.srcIdx, s.roi)))
        ((prioritizeFaces [cexA, cexB] 1).map (fun f => (f.idx, f.roi))) ∧
      (∀ (i : ℕ) (s : SelectedFace),
        (allocateBudgetToFaces 1000 [cexA, cexB] 1).selectedFaces[i]? = some s →
          s.priority = i + 1) ∧
      (∀ (j i : ℕ) (a b : ScoredFace),
        (prioritizeFaces [cexA, cexB] 1)[j]? = some a →
        (prioritizeFaces [cexA, cexB] 1)[i]? = some b → j < i →
        (∃ s ∈ (allocateBudgetToFaces 1000 [cexA, cexB] 1).selectedFaces,
          s.srcIdx = b.idx) →
        (∀ s ∈ (allocateBudgetToFaces 1000 [cexA, cexB] 1).selectedFaces,
          s.srcIdx ≠ a.idx) →
        a.face.range_minimo ≤ 0 ∨
          (allocateBudgetToFaces 1000 [cexA, cexB] 1).remainingBudget <
            a.face.unitario_bruto_negociado * a.face.range_minimo) :=
  funding_order_amended 1000 1 [cexA, cexB] (by
    intro f hf
    rcases List.mem_cons.mp hf with h | hf2
    · subst h; norm_num [cexA]
    · rcases List.mem_cons.mp hf2 with h | hf3
      · subst h; norm_num [cexB]
      · simp at hf3)

/-- The first pass visits every sorted row once, in order, preserving the
(row, index) pairs. -/
theorem firstPass_structure (B W : ℚ) (L : List IndexedRow) (r : ℚ) :
    (firstPass B W L r).1.map (fun e => (e.idx, e.row)) =
      L.map (fun ir => (ir.idx, ir.row)) := by
  induction L generalizing r with
  | nil => simp [firstPass]
  | cons ir rest ih =>
    simp only [firstPass]
    by_cases hg : r ≤ 0 ∨ ir.row.unitario_bruto_tabela ≤ 0
    · simp only [if_pos hg, List.map_cons]
      rw [ih]
    · simp only [if_neg hg, List.map_cons]
      rw [ih]

/-- Accounting identity of the first pass: the final remaining budget is the
starting budget minus the total spend of the produced allocations. -/
theorem firstPass_spend (B W : ℚ) (L : List IndexedRow) (r : ℚ) :
    (firstPass B W L r).2 =
      r - ((firstPass B W L r).1.map
        (fun e => e.row.unitario_bruto_tabela * e.alloc)).sum := by
  induction L generalizing r with
  | nil => simp [firstPass]
  | cons ir rest ih =>
    simp only [firstPass]
    by_cases hg : r ≤ 0 ∨ ir.row.unitario_bruto_tabela ≤ 0
    · simp only [if_pos hg, List.map_cons, List.sum_cons]
      rw [ih]
      ring
    · simp only [if_neg hg, List.map_cons, List.sum_cons]
      rw [ih]
      ring

/-- The first pass spends at most the sum of the proportional row budgets. -/
theorem firstPass_spend_le (B W : ℚ) (L : List IndexedRow) (r : ℚ)
    (hB : 0 ≤ B) (hW : 0 < W) (hw : ∀ ir ∈ L, 0 ≤ rowWeight ir.row) :
    r - (firstPass B W L r).2 ≤ (L.map (fun ir => B * (rowWeight ir.row / W))).sum := by
  induction L generalizing r with
  | nil => simp [firstPass]
  | cons ir rest ih =>
    have hw0 : 0 ≤ rowWeight ir.row := hw ir (List.mem_cons_self ir rest)
    have hwr : ∀ x ∈ rest, 0 ≤ rowWeight x.row :=
      fun x hx => hw x (List.mem_cons_of_mem ir hx)
    have hrb : 0 ≤ B * (rowWeight ir.row / W) :=
      mul_nonneg hB (div_nonneg hw0 (le_of_lt hW))
    simp only [firstPass, List.map_cons, List.sum_cons]
    by_cases hg : r ≤ 0 ∨ ir.row.unitario_bruto_tabela ≤ 0
    · simp only [if_pos hg]
      have := ih r hwr
      linarith
    · simp only [if_neg hg]
      push_neg at hg
      have hp : 0 < ir.row.unitario_bruto_tabela := hg.2
      set p := ir.row.unitario_bruto_tabela with hpdef
      set rb := B * (rowWeight ir.row / W) with hrbdef
      set alloc := min ((⌊rb / p⌋ : ℤ) : ℚ) ir.row.totalFaces with hadef
      have hspend : p * alloc ≤ rb := by
        have h1 : alloc ≤ ((⌊rb / p⌋ : ℤ) : ℚ) := min_le_left _ _
        have h2 : ((⌊rb / p⌋ : ℤ) : ℚ) ≤ rb / p := Int.floor_le _
        have h3 : alloc ≤ rb / p := le_trans h1 h2
        calc p * alloc ≤ p * (rb / p) := by
              exact mul_le_mul_of_nonneg_left h3 (le_of_lt hp)
          _ = rb := by field_simp
      have := ih (r - p * alloc) hwr
      linarith

/-- The top-up pass preserves the (row, index) pairs. -/
theorem secondPass_structure (es : List AllocEntry) (r : ℚ) :
    (secondPass es r).1.map (fun e => (e.idx, e.row)) = es.map (fun e => (e.idx, e.row)) := by
  induction es generalizing r with
  | nil => simp [secondPass]
  | cons e rest ih =>
    simp only [secondPass]
    by_cases h0 : r ≤ 0
    · simp only [if_pos h0]
    · simp only [if_neg h0]
      by_cases h1 : 0 < e.row.totalFaces - e.alloc ∧ 0 < e.row.unitario_bruto_tabela
      · simp only [if_pos h1]
        by_cases h2 : 0 < min ((⌊r / e.row.unitario_bruto_tabela⌋ : ℤ) : ℚ)
            (e.row.totalFaces - e.alloc)
        · simp only [if_pos h2, List.map_cons]
          rw [ih]
        · simp only [if_neg h2, List.map_cons]
          rw [ih]
      · simp only [if_neg h1, List.map_cons]
        rw [ih]

/-- The top-up pass keeps the leftover nonnegative and accounts exactly for
what it adds. -/
theorem secondPass_spend (es : List AllocEntry) (r : ℚ) (h0 : 0 ≤ r) :
    0 ≤ (secondPass es r).2 ∧
      ((secondPass es r).1.map (fun e => e.row.unitario_bruto_tabela * e.alloc)).sum =
        (es.map (fun e => e.row.unitario_bruto_tabela * e.alloc)).sum +
          (r - (secondPass es r).2) := by
  induction es generalizing r with
  | nil => simp [secondPass, h0]
  | cons e rest ih =>
    simp only [secondPass]
    by_cases hr0 : r ≤ 0
    · simp only [if_pos hr0]
      exact ⟨h0, by ring⟩
    · simp only [if_neg hr0]
      by_cases h1 : 0 < e.row.totalFaces - e.alloc ∧ 0 < e.row.unitario_bruto_tabela
      · simp only [if_pos h1]
        by_cases h2 : 0 < min ((⌊r / e.row.unitario_bruto_tabela⌋ : ℤ) : ℚ)
            (e.row.totalFaces - e.alloc)
        · simp only [if_pos h2]
          set p := e.row.unitario_bruto_tabela with hpdef
          set extra := min ((⌊r / p⌋ : ℤ) : ℚ) (e.row.totalFaces - e.alloc) with hedef
          have hpe : p * extra ≤ r := by
            have hpne : p ≠ 0 := ne_of_gt h1.2
            have hfl : ((⌊r / p⌋ : ℤ) : ℚ) ≤ r / p := Int.floor_le _
            have h3 : extra ≤ r / p := le_trans (min_le_left _ _) hfl
            calc p * extra ≤ p * (r / p) := mul_le_mul_of_nonneg_left h3 (le_of_lt h1.2)
              _ = r := by field_simp
          obtain ⟨ihr, ihs⟩ := ih (r - p * extra) (by linarith)
          refine ⟨ihr, ?_⟩
          simp only [List.map_cons, List.sum_cons]
          rw [ihs]
          ring
        · simp only [if_neg h2]
          obtain ⟨ihr, ihs⟩ := ih r h0
          refine ⟨ihr, ?_⟩
          simp only [List.map_cons, List.sum_cons]
          rw [ihs]
          ring
      · simp only [if_neg h1]
        obtain ⟨ihr, ihs⟩ := ih r h0
        refine ⟨ihr, ?_⟩
        simp only [List.map_cons, List.sum_cons]
        rw [ihs]
        ring

/-- Every entry after the top-up pass comes from an input entry with the same
row and index, and its allocation is unchanged unless the row has positive
price. -/
theorem secondPass_preserve (es : List AllocEntry) (r : ℚ) :
    ∀ x ∈ (secondPass es r).1, ∃ e ∈ es, x.idx = e.idx ∧ x.row = e.row ∧
      (x.alloc = e.alloc ∨ 0 < e.row.unitario_bruto_tabela) := by
  induction es generalizing r with
  | nil =>
    intro x hx
    simp [secondPass] at hx
  | cons e rest ih =>
    intro x hx
    simp only [secondPass] at hx
    by_cases h0 : r ≤ 0
    · rw [if_pos h0] at hx
      exact ⟨x, hx, rfl, rfl, Or.inl rfl⟩
    · rw [if_neg h0] at hx
      by_cases h1 : 0 < e.row.totalFaces - e.alloc ∧ 0 < e.row.unitario_bruto_tabela
      · rw [if_pos h1] at hx
        by_cases h2 : 0 < min ((⌊r / e.row.unitario_bruto_tabela⌋ : ℤ) : ℚ)
            (e.row.totalFaces - e.alloc)
        · rw [if_pos h2] at hx
          rcases List.mem_cons.mp hx with heq | hmem
          · exact ⟨e, List.mem_cons_self e rest, by rw [heq], by rw [heq], Or.inr h1.2⟩
          · obtain ⟨e0, he0, hrel⟩ := ih _ x hmem
            exact ⟨e0, List.mem_cons_of_mem e he0, hrel⟩
        · rw [if_neg h2] at hx
          rcases List.mem_cons.mp hx with heq | hmem
          · exact ⟨e, List.mem_cons_self e rest, by rw [heq], by rw [heq],
              Or.inl (by rw [heq])⟩
          · obtain ⟨e0, he0, hrel⟩ := ih _ x hmem
            exact ⟨e0, List.mem_cons_of_mem e he0, hrel⟩
      · rw [if_neg h1] at hx
        rcases List.mem_cons.mp hx with heq | hmem
        · exact ⟨e, List.mem_cons_self e rest, by rw [heq], by rw [heq],
            Or.inl (by rw [heq])⟩
        · obtain ⟨e0, he0, hrel⟩ := ih _ x hmem
          exact ⟨e0, List.mem_cons_of_mem e he0, hrel⟩

/-- Lookup lemma: `find?` by index retrieves exactly the entry when indices are distinct. -/
theorem find?_idx_eq (es : List AllocEntry) (hn : (es.map (fun e => e.idx)).Nodup)
    (e : AllocEntry) (he : e ∈ es) :
    es.find? (fun x => x.idx == e.idx) = some e := by
  induction es with
  | nil => simp at he
  | cons a rest ih =>
    simp only [List.map_cons, List.nodup_cons] at hn
    rcases List.mem_cons.mp he with rfl | hmem
    · simp [List.find?_cons_of_pos]
    · have hne : ¬(a.idx = e.idx) := fun hc => hn.1 (hc ▸ List.mem_map_of_mem _ hmem)
      rw [List.find?_cons_of_neg _ (by simpa using hne)]
      exact ih hn.2 hmem

/-- The stable weight sort permutes the `(index, row)` pairs of `enum`. -/
theorem sortedIndexed_pairs_perm (rows : List PlanRow) :
    List.Perm ((sortedIndexed rows).map (fun ir => (ir.idx, ir.row))) rows.enum := by
  have hperm := List.perm_insertionSort rowRel (rows.enum.map fun p => IndexedRow.mk p.2 p.1)
  have h2 := hperm.map (fun ir => (ir.idx, ir.row))
  have h3 : (rows.enum.map fun p => IndexedRow.mk p.2 p.1).map (fun ir => (ir.idx, ir.row)) =
      rows.enum := by
    rw [List.map_map]
    have h4 : ((fun ir : IndexedRow => (ir.idx, ir.row)) ∘
        (fun p : ℕ × PlanRow => IndexedRow.mk p.2 p.1)) = id := by
      funext p
      rfl
    rw [h4, List.map_id]
  rw [← h3]
  exact h2

/-- With positive budget and weights, no row's turn sees an exhausted budget,
so each first-pass allocation is exactly `min(floor(rowBudget/price),
totalFaces)`, and 0 for nonpositive prices. -/
theorem firstPass_formula (B W : ℚ) (hB : 0 < B) (hW : 0 < W) :
    ∀ (L : List IndexedRow) (r : ℚ),
      (∀ ir ∈ L, 0 < rowWeight ir.row) →
      B * ((L.map (fun ir => rowWeight ir.row)).sum / W) ≤ r →
      ∀ e ∈ (firstPass B W L r).1,
        e.alloc = if e.row.unitario_bruto_tabela ≤ 0 then 0
          else min ((⌊(B * (rowWeight e.row / W)) / e.row.unitario_bruto_tabela⌋ : ℤ) : ℚ)
            e.row.totalFaces := by
  intro L
  induction L with
  | nil => intro r _ _ e he; simp [firstPass] at he
  | cons ir rest ih =>
    intro r hpos hinv e he
    have hw0 : 0 < rowWeight ir.row := hpos ir (List.mem_cons_self ir rest)
    have hwrest : ∀ x ∈ rest, 0 < rowWeight x.row :=
      fun x hx => hpos x (List.mem_cons_of_mem ir hx)
    have hsumrest : 0 ≤ (rest.map (fun x => rowWeight x.row)).sum :=
      List.sum_nonneg (by
        intro q hq
        obtain ⟨x, hx, rfl⟩ := List.mem_map.mp hq
        exact le_of_lt (hwrest x hx))
    have hsum : (rest.map (fun x => rowWeight x.row)).sum + rowWeight ir.row =
        ((ir :: rest).map (fun x => rowWeight x.row)).sum := by
      simp [List.sum_cons]
      ring
    have hrpos : 0 < r := by
      have h1 : 0 < B * (rowWeight ir.row / W) :=
        mul_pos hB (div_pos hw0 hW)
      have h2 : B * (rowWeight ir.row / W) ≤
          B * (((ir :: rest).map (fun x => rowWeight x.row)).sum / W) := by
        gcongr
        simp only [List.map_cons, List.sum_cons]
        linarith
      linarith
    simp only [firstPass] at he
    by_cases hg : r ≤ 0 ∨ ir.row.unitario_bruto_tabela ≤ 0
    · rw [if_pos hg] at he
      have hgp : ir.row.unitario_bruto_tabela ≤ 0 := by
        rcases hg with hg | hg
        · linarith
        · exact hg
      rcases List.mem_cons.mp he with rfl | hmem
      · simp [if_pos hgp]
      · refine ih r hwrest ?_ e hmem
        have : B * ((rest.map (fun x => rowWeight x.row)).sum / W) ≤
            B * (((ir :: rest).map (fun x => rowWeight x.row)).sum / W) := by
          gcongr
          simp only [List.map_cons, List.sum_cons]
          linarith
        linarith
    · rw [if_neg hg] at he
      push_neg at hg
      have hp : 0 < ir.row.unitario_bruto_tabela := hg.2
      rcases List.mem_cons.mp he with rfl | hmem
      · simp [if_neg (not_le.mpr hp)]
      · set p := ir.row.unitario_bruto_tabela
        set rb := B * (rowWeight ir.row / W) with hrbdef
        set alloc := min ((⌊rb / p⌋ : ℤ) : ℚ) ir.row.totalFaces with hadef
        have hspend : p * alloc ≤ rb := by
          have hpne : p ≠ 0 := ne_of_gt hp
          have h3 : alloc ≤ rb / p := le_trans (min_le_left _ _) (Int.floor_le _)
          calc p * alloc ≤ p * (rb / p) := mul_le_mul_of_nonneg_left h3 (le_of_lt hp)
            _ = rb := by field_simp
        refine ih (r - p * alloc) hwrest ?_ e hmem
        have hx : B * (((ir :: rest).map (fun x => rowWeight x.row)).sum / W) =
            B * ((rest.map (fun x => rowWeight x.row)).sum / W) + rb := by
          rw [hrbdef]
          field_simp
          ring
        linarith

/-- Writing allocations back by index: every produced row is `setAlloc` of an
entry's row, and the table-price spend equals the entries' spend. -/
theorem writeback_rows (rows : List PlanRow) (final : List AllocEntry)
    (hpairs : List.Perm (final.map (fun e => (e.idx, e.row))) rows.enum) :
    (∀ r ∈ rows.enum.map (fun p =>
        match final.find? (fun e => e.idx == p.1) with
        | some e => setAlloc p.2 e.alloc
        | none => p.2),
      ∃ e ∈ final, r = setAlloc e.row e.alloc) ∧
    ((rows.enum.map (fun p =>
        match final.find? (fun e => e.idx == p.1) with
        | some e => setAlloc p.2 e.alloc
        | none => p.2)).map (fun r => r.unitario_bruto_tabela * r.s1_edit)).sum =
      (final.map (fun e => e.row.unitario_bruto_tabela * e.alloc)).sum := by
  have hnodup : (final.map (fun e => e.idx)).Nodup := by
    have h1 : List.Perm ((final.map (fun e => (e.idx, e.row))).map Prod.fst)
        (rows.enum.map Prod.fst) := hpairs.map Prod.fst
    rw [List.map_map] at h1
    have h2 : ((rows.enum.map Prod.fst)).Nodup := List.nodup_enum_map_fst rows
    have h3 := h1.nodup_iff.mpr h2
    simpa [Function.comp] using h3
  have hW1 : ∀ p ∈ rows.enum, ∃ e ∈ final, e.idx = p.1 ∧ e.row = p.2 ∧
      final.find? (fun x => x.idx == p.1) = some e := by
    intro p hp
    have hpmem : p ∈ final.map (fun e => (e.idx, e.row)) := hpairs.symm.mem_iff.mp hp
    obtain ⟨e, he, hpe⟩ := List.mem_map.mp hpmem
    refine ⟨e, he, ?_, ?_, ?_⟩
    · rw [← hpe]
    · rw [← hpe]
    · have := find?_idx_eq final hnodup e he
      rw [← hpe]
      exact this
  constructor
  · intro r hr
    obtain ⟨p, hp, rfl⟩ := List.mem_map.mp hr
    obtain ⟨e, he, hidx, hrow, hfind⟩ := hW1 p hp
    refine ⟨e, he, ?_⟩
    rw [hfind, hrow]
  · have hcongr : (rows.enum.map (fun p =>
        match final.find? (fun e => e.idx == p.1) with
        | some e => setAlloc p.2 e.alloc
        | none => p.2)).map (fun r => r.unitario_bruto_tabela * r.s1_edit) =
        rows.enum.map (fun p => p.2.unitario_bruto_tabela *
          ((Option.map (fun e => e.alloc) (final.find? (fun x => x.idx == p.1))).getD 0)) := by
    -- pointwise on members
      rw [List.map_map]
      refine List.map_congr_left ?_
      intro p hp
      obtain ⟨e, he, hidx, hrow, hfind⟩ := hW1 p hp
      simp only [Function.comp, hfind]
      rw [← hrow]
      rfl
    rw [hcongr]
    have hperm2 : List.Perm
        (rows.enum.map (fun p => p.2.unitario_bruto_tabela *
          ((Option.map (fun e => e.alloc) (final.find? (fun x => x.idx == p.1))).getD 0)))
        ((final.map (fun e => (e.idx, e.row))).map (fun p => p.2.unitario_bruto_tabela *
          ((Option.map (fun e => e.alloc) (final.find? (fun x => x.idx == p.1))).getD 0))) :=
      (hpairs.map _).symm
    rw [hperm2.sum_eq]
    rw [List.map_map]
    refine congrArg List.sum (List.map_congr_left ?_)
    intro e he
    have hfind := find?_idx_eq final hnodup e he
    simp only [Function.comp, hfind]
    rfl

/-- Preservation lemma: `recalculatePlanningRows` preserves the weekly buckets, the table price
and hence the table-price spend. -/
theorem recalc_preserves (b : Block) :
    ((recalculatePlanningRows b).planningRows.map
        (fun r => r.unitario_bruto_tabela * r.s1_edit)).sum =
      (b.planningRows.map (fun r => r.unitario_bruto_tabela * r.s1_edit)).sum ∧
      ∀ r ∈ (recalculatePlanningRows b).planningRows, ∃ r0 ∈ b.planningRows,
        r.s1_edit = r0.s1_edit ∧ r.s2_edit = r0.s2_edit ∧ r.s3_edit = r0.s3_edit ∧
          r.s4_edit = r0.s4_edit ∧ r.unitario_bruto_tabela = r0.unitario_bruto_tabela := by
  constructor
  · simp only [recalculatePlanningRows, List.map_map]
    exact congrArg List.sum (List.map_congr_left fun x _ => rfl)
  · intro r hr
    simp only [recalculatePlanningRows, List.map_map, List.mem_map] at hr
    obtain ⟨x, hx, rfl⟩ := hr
    exact ⟨x, hx, rfl, rfl, rfl, rfl, rfl⟩

/-- Claim C8 counterexample:.  A single row with weight 0 (`pesos = 0`), price 100
and capacity 5 in a block with budget 300 (below the 500 full-capacity cost)
receives 3 faces, not the zero allocation the claim promises for zero-weight
rows: `pesos || 0.5` substitutes the default weight 0.5. -/
theorem auto_allocation_weighting_cex :
    c8Block.planningRows.map (fun r => r.pesos) = [0] ∧
      0 < c8Block.budget ∧
      c8Block.budget < totalMaxCost c8Block.planningRows ∧
      (autoAllocateFaces c8Block).planningRows.map (fun r => r.s1_edit) = [3] := by
  refine ⟨by with_unfolding_all rfl, by norm_num [c8Block], ?_, by with_unfolding_all rfl⟩
  have h : totalMaxCost c8Block.planningRows = 500 := by with_unfolding_all rfl
  rw [h]
  norm_num [c8Block]

/-- Claim C8 amended:.  In the budget-limited branch, with nonnegative row
weights (the data-model invariant): the first pass gives every row with
positive price exactly `min(floor((budget × w/Σw) / unitPrice), totalFaces)`
faces, where `w` is the row's weight *defaulted to 0.5 when zero or missing*
(`pesos || 0.5`); zero-price rows end with zero allocation (also after the
top-up pass); and all four weekly buckets of every row are equal. -/
theorem auto_allocation_weighting_amended (block : Block)
    (hb : 0 < block.budget)
    (htmc : 0 < totalMaxCost block.planningRows)
    (hlt : block.budget < totalMaxCost block.planningRows)
    (hw : ∀ r ∈ block.planningRows, 0 ≤ r.pesos) :
    (∀ e ∈ (firstPass block.budget ((block.planningRows.map rowWeight).sum)
        (sortedIndexed block.planningRows) block.budget).1,
      e.alloc = if e.row.unitario_bruto_tabela ≤ 0 then 0
        else min ((⌊(block.budget *
              (rowWeight e.row / (block.planningRows.map rowWeight).sum)) /
            e.row.unitario_bruto_tabela⌋ : ℤ) : ℚ) e.row.totalFaces) ∧
    (∀ r ∈ (autoAllocateFaces block).planningRows,
      r.unitario_bruto_tabela ≤ 0 → r.s1_edit = 0) ∧
    (∀ r ∈ (autoAllocateFaces block).planningRows,
      r.s1_edit = r.s2_edit ∧ r.s2_edit = r.s3_edit ∧ r.s3_edit = r.s4_edit) := by
  have h1 : ¬(totalMaxCost block.planningRows ≤ 0 ∨ block.budget ≤ 0) := by
    push_neg
    exact ⟨htmc, hb⟩
  have h2 : ¬(totalMaxCost block.planningRows ≤ block.budget) := not_le.mpr hlt
  have hwpos : ∀ r ∈ block.planningRows, 0 < rowWeight r := by
    intro r hr
    unfold rowWeight
    rcases eq_or_lt_of_le (hw r hr) with he | hl
    · rw [← he]
      norm_num
    · rw [if_neg (ne_of_gt hl)]
      exact hl
  have hne : block.planningRows ≠ [] := by
    intro h
    rw [h] at htmc
    simp [totalMaxCost] at htmc
  have hWpos : 0 < (block.planningRows.map rowWeight).sum := by
    apply List.sum_pos
    · intro x hx
      obtain ⟨r, hr, rfl⟩ := List.mem_map.mp hx
      exact hwpos r hr
    · simpa using hne
  set W := (block.planningRows.map rowWeight).sum with hWdef
  set B := block.budget with hBdef
  set rows := block.planningRows with hrowsdef
  have hindperm : List.Perm ((sortedIndexed rows).map (fun ir => (ir.idx, ir.row)))
      rows.enum := sortedIndexed_pairs_perm rows
  have hindw : ((sortedIndexed rows).map (fun ir => rowWeight ir.row)).sum = W := by
    have hp := (List.perm_insertionSort rowRel
      (rows.enum.map fun p => IndexedRow.mk p.2 p.1)).map (fun ir => rowWeight ir.row)
    have hsum := hp.sum_eq
    rw [hWdef]
    calc ((sortedIndexed rows).map (fun ir => rowWeight ir.row)).sum
        = ((rows.enum.map fun p => IndexedRow.mk p.2 p.1).map
            (fun ir => rowWeight ir.row)).sum := hsum
      _ = (rows.map rowWeight).sum := by
          rw [List.map_map]
          have hmm : rows.enum.map ((fun ir => rowWeight ir.row) ∘
              (fun p => IndexedRow.mk p.2 p.1)) = (rows.enum.map Prod.snd).map rowWeight := by
            rw [List.map_map]
            rfl
          rw [hmm, List.enum_map_snd]
  have hindwpos : ∀ ir ∈ sortedIndexed rows, 0 < rowWeight ir.row := by
    intro ir hir
    have hmem := (List.perm_insertionSort rowRel _).mem_iff.mp hir
    obtain ⟨p, hp, rfl⟩ := List.mem_map.mp hmem
    have hp2 : p.2 ∈ rows := List.getElem?_mem (List.mem_enum_iff_getElem?.mp hp)
    exact hwpos p.2 hp2
  have hinv : B * (((sortedIndexed rows).map (fun ir => rowWeight ir.row)).sum / W) ≤ B := by
    rw [hindw, div_self (ne_of_gt hWpos), mul_one]
  have hformula := firstPass_formula B W hb hWpos (sortedIndexed rows) B hindwpos hinv
  refine ⟨hformula, ?_, ?_⟩
  · -- zero-price rows receive zero allocation
    set pass1 := firstPass B W (sortedIndexed rows) B with hp1def
    set final := if 0 < pass1.2 then (secondPass pass1.1 pass1.2).1 else pass1.1 with hfdef
    have hfpairs : List.Perm (final.map (fun e => (e.idx, e.row))) rows.enum := by
      have hfp_pairs : final.map (fun e => (e.idx, e.row)) =
          (sortedIndexed rows).map (fun ir => (ir.idx, ir.row)) := by
        rw [hfdef]
        by_cases hc : 0 < pass1.2
        · rw [if_pos hc, secondPass_structure, hp1def, firstPass_structure]
        · rw [if_neg hc, hp1def, firstPass_structure]
      rw [hfp_pairs]
      exact hindperm
    obtain ⟨hwb1, hwb2⟩ := writeback_rows rows final hfpairs
    have hfinalloc : ∀ e ∈ final, e.row.unitario_bruto_tabela ≤ 0 → e.alloc = 0 := by
      intro e he hple
      have hmem : ∃ e0 ∈ pass1.1, e.row = e0.row ∧
          (e.alloc = e0.alloc ∨ 0 < e0.row.unitario_bruto_tabela) := by
        rw [hfdef] at he
        by_cases hc : 0 < pass1.2
        · rw [if_pos hc] at he
          obtain ⟨e0, he0, _, hrow, halloc⟩ := secondPass_preserve pass1.1 pass1.2 e he
          exact ⟨e0, he0, hrow, halloc⟩
        · rw [if_neg hc] at he
          exact ⟨e, he, rfl, Or.inl rfl⟩
      obtain ⟨e0, he0, hrow, halloc⟩ := hmem
      have hple0 : e0.row.unitario_bruto_tabela ≤ 0 := hrow ▸ hple
      have h0 : e0.alloc = 0 := by
        have := hformula e0 he0
        rw [this, if_pos hple0]
      rcases halloc with heq | hpos
      · rw [heq, h0]
      · exact absurd hpos (not_lt.mpr hple0)
    have hauto : autoAllocateFaces block = recalculatePlanningRows
        { block with planningRows := rows.enum.map (fun p =>
            match final.find? (fun e => e.idx == p.1) with
            | some e => setAlloc p.2 e.alloc
            | none => p.2) } := by
      rw [autoAllocateFaces.eq_def]
      simp only [← hrowsdef, ← hBdef]
      rw [if_neg h1, if_neg h2]
    rw [hauto]
    intro r hr hple
    obtain ⟨hr1, hr2⟩ := recalc_preserves
      { block with planningRows := rows.enum.map (fun p =>
          match final.find? (fun e => e.idx == p.1) with
          | some e => setAlloc p.2 e.alloc
          | none => p.2) }
    obtain ⟨r0, hr0, hs1, _, _, _, hprice⟩ := hr2 r hr
    obtain ⟨e, he, rfl⟩ := hwb1 r0 hr0
    rw [hs1]
    have : (setAlloc e.row e.alloc).unitario_bruto_tabela = e.row.unitario_bruto_tabela := rfl
    rw [hprice] at hple
    rw [this] at hple
    have := hfinalloc e he hple
    rw [this]
    rfl
  · -- four buckets equal
    set pass1 := firstPass B W (sortedIndexed rows) B with hp1def
    set final := if 0 < pass1.2 then (secondPass pass1.1 pass1.2).1 else pass1.1 with hfdef
    have hfpairs : List.Perm (final.map (fun e => (e.idx, e.row))) rows.enum := by
      have hfp_pairs : final.map (fun e => (e.idx, e.row)) =
          (sortedIndexed rows).map (fun ir => (ir.idx, ir.row)) := by
        rw [hfdef]
        by_cases hc : 0 < pass1.2
        · rw [if_pos hc, secondPass_structure, hp1def, firstPass_structure]
        · rw [if_neg hc, hp1def, firstPass_structure]
      rw [hfp_pairs]
      exact hindperm
    obtain ⟨hwb1, _⟩ := writeback_rows rows final hfpairs
    have hauto : autoAllocateFaces block = recalculatePlanningRows
        { block with planningRows := rows.enum.map (fun p =>
            match final.find? (fun e => e.idx == p.1) with
            | some e => setAlloc p.2 e.alloc
            | none => p.2) } := by
      rw [autoAllocateFaces.eq_def]
      simp only [← hrowsdef, ← hBdef]
      rw [if_neg h1, if_neg h2]
    rw [hauto]
    intro r hr
    obtain ⟨hr1, hr2⟩ := recalc_preserves
      { block with planningRows := rows.enum.map (fun p =>
          match final.find? (fun e => e.idx == p.1) with
          | some e => setAlloc p.2 e.alloc
          | none => p.2) }
    obtain ⟨r0, hr0, hs1, hs2, hs3, hs4, _⟩ := hr2 r hr
    obtain ⟨e, he, rfl⟩ := hwb1 r0 hr0
    rw [hs1, hs2, hs3, hs4]
    exact ⟨rfl, rfl, rfl⟩

/-- Claim C8 witness:: the amended allocation properties at a concrete two-row
block. -/
theorem auto_allocation_weighting_witness :
    (∀ e ∈ (firstPass c10Block.budget ((c10Block.planningRows.map rowWeight).sum)
        (sortedIndexed c10Block.planningRows) c10Block.budget).1,
      e.alloc = if e.row.unitario_bruto_tabela ≤ 0 then 0
        else min ((⌊(c10Block.budget *
              (rowWeight e.row / (c10Block.planningRows.map rowWeight).sum)) /
            e.row.unitario_bruto_tabela⌋ : ℤ) : ℚ) e.row.totalFaces) ∧
    (∀ r ∈ (autoAllocateFaces c10Block).planningRows,
      r.unitario_bruto_tabela ≤ 0 → r.s1_edit = 0) ∧
    (∀ r ∈ (autoAllocateFaces c10Block).planningRows,
      r.s1_edit = r.s2_edit ∧ r.s2_edit = r.s3_edit ∧ r.s3_edit = r.s4_edit) :=
  auto_allocation_weighting_amended c10Block (by norm_num [c10Block])
    (by
      have h : totalMaxCost c10Block.planningRows = 200 := by with_unfolding_all rfl
      rw [h]
      norm_num)
    (by
      have h : totalMaxCost c10Block.planningRows = 200 := by with_unfolding_all rfl
      rw [h]
      norm_num [c10Block])
    (by
      intro r hr
      rcases List.mem_cons.mp hr with h | hr2
      · rw [h]
        norm_num [mkRow]
      · rcases List.mem_cons.mp hr2 with h | hr3
        · rw [h]
          norm_num [mkRow]
        · simp at hr3)

/-- Claim C10:.  In the budget-limited branch with nonnegative row weights, after
`autoAllocateFaces` the total table-price spend `Σ unitario_bruto_tabela ×
s1_edit` never exceeds the block's budget, and the four weekly buckets of
every row hold the same face count. -/
theorem auto_allocation_budget_bound (block : Block)
    (hb : 0 < block.budget)
    (htmc : 0 < totalMaxCost block.planningRows)
    (hlt : block.budget < totalMaxCost block.planningRows)
    (hw : ∀ r ∈ block.planningRows, 0 ≤ r.pesos) :
    ((autoAllocateFaces block).planningRows.map
        (fun r => r.unitario_bruto_tabela * r.s1_edit)).sum ≤ block.budget ∧
      ∀ r ∈ (autoAllocateFaces block).planningRows,
        r.s1_edit = r.s2_edit ∧ r.s2_edit = r.s3_edit ∧ r.s3_edit = r.s4_edit := by
  have h1 : ¬(totalMaxCost block.planningRows ≤ 0 ∨ block.budget ≤ 0) := by
    push_neg
    exact ⟨htmc, hb⟩
  have h2 : ¬(totalMaxCost block.planningRows ≤ block.budget) := not_le.mpr hlt
  have hwpos : ∀ r ∈ block.planningRows, 0 < rowWeight r := by
    intro r hr
    unfold rowWeight
    rcases eq_or_lt_of_le (hw r hr) with he | hl
    · rw [← he]
      norm_num
    · rw [if_neg (ne_of_gt hl)]
      exact hl
  have hne : block.planningRows ≠ [] := by
    intro h
    rw [h] at htmc
    simp [totalMaxCost] at htmc
  have hWpos : 0 < (block.planningRows.map rowWeight).sum := by
    apply List.sum_pos
    · intro x hx
      obtain ⟨r, hr, rfl⟩ := List.mem_map.mp hx
      exact hwpos r hr
    · simpa using hne
  set W := (block.planningRows.map rowWeight).sum with hWdef
  set B := block.budget with hBdef
  set rows := block.planningRows with hrowsdef
  -- permutation between sorted-indexed and enum
  have hindperm : List.Perm ((sortedIndexed rows).map (fun ir => (ir.idx, ir.row)))
      rows.enum := sortedIndexed_pairs_perm rows
  have hindw : ((sortedIndexed rows).map (fun ir => rowWeight ir.row)).sum = W := by
    have hp := (List.perm_insertionSort rowRel
      (rows.enum.map fun p => IndexedRow.mk p.2 p.1)).map (fun ir => rowWeight ir.row)
    have hsum := hp.sum_eq
    rw [hWdef]
    calc ((sortedIndexed rows).map (fun ir => rowWeight ir.row)).sum
        = ((rows.enum.map fun p => IndexedRow.mk p.2 p.1).map
            (fun ir => rowWeight ir.row)).sum := by
          exact hsum
      _ = (rows.map rowWeight).sum := by
          rw [List.map_map]
          have : rows.enum.map ((fun ir => rowWeight ir.row) ∘ (fun p => IndexedRow.mk p.2 p.1))
              = (rows.enum.map Prod.snd).map rowWeight := by
            rw [List.map_map]
            rfl
          rw [this, List.enum_map_snd]
  have hindwnn : ∀ ir ∈ sortedIndexed rows, 0 ≤ rowWeight ir.row := by
    intro ir hir
    have hmem := (List.perm_insertionSort rowRel _).mem_iff.mp hir
    obtain ⟨p, hp, rfl⟩ := List.mem_map.mp hmem
    have : p.2 ∈ rows := by
      have := List.mem_enum_iff_getElem?.mp hp
      exact List.getElem?_mem this
    exact le_of_lt (hwpos p.2 this)
  -- first pass spend bound
  have hfp := firstPass_spend_le B W (sortedIndexed rows) B (le_of_lt hb) hWpos hindwnn
  have hfp2 : ((sortedIndexed rows).map (fun ir => B * (rowWeight ir.row / W))).sum = B := by
    have hrw : (sortedIndexed rows).map (fun ir => B * (rowWeight ir.row / W)) =
        (sortedIndexed rows).map (fun ir => (B / W) * rowWeight ir.row) := by
      refine List.map_congr_left ?_
      intro ir _
      field_simp
    rw [hrw, List.sum_map_mul_left]
    have : ((sortedIndexed rows).map (fun ir => rowWeight ir.row)).sum = W := hindw
    rw [this]
    field_simp
  rw [hfp2] at hfp
  have hrem1 : 0 ≤ (firstPass B W (sortedIndexed rows) B).2 := by linarith
  have hsp1 := firstPass_spend B W (sortedIndexed rows) B
  -- final entries and their spend bound
  set pass1 := firstPass B W (sortedIndexed rows) B with hp1def
  set final := if 0 < pass1.2 then (secondPass pass1.1 pass1.2).1 else pass1.1 with hfdef
  have hfinsum : (final.map (fun e => e.row.unitario_bruto_tabela * e.alloc)).sum ≤ B := by
    rw [hfdef]
    by_cases hc : 0 < pass1.2
    · rw [if_pos hc]
      obtain ⟨hr2, hs2⟩ := secondPass_spend pass1.1 pass1.2 (le_of_lt hc)
      rw [hs2]
      have : (pass1.1.map (fun e => e.row.unitario_bruto_tabela * e.alloc)).sum =
          B - pass1.2 := by
        rw [hp1def]
        linarith [hsp1]
      rw [this]
      linarith
    · rw [if_neg hc]
      have : (pass1.1.map (fun e => e.row.unitario_bruto_tabela * e.alloc)).sum =
          B - pass1.2 := by
        rw [hp1def]
        linarith [hsp1]
      rw [this]
      linarith
  have hfpairs : List.Perm (final.map (fun e => (e.idx, e.row))) rows.enum := by
    have hfp_pairs : final.map (fun e => (e.idx, e.row)) =
        (sortedIndexed rows).map (fun ir => (ir.idx, ir.row)) := by
      rw [hfdef]
      by_cases hc : 0 < pass1.2
      · rw [if_pos hc, secondPass_structure, hp1def, firstPass_structure]
      · rw [if_neg hc, hp1def, firstPass_structure]
    rw [hfp_pairs]
    exact hindperm
  obtain ⟨hwb1, hwb2⟩ := writeback_rows rows final hfpairs
  -- resolve the branch of autoAllocateFaces
  have hauto : autoAllocateFaces block = recalculatePlanningRows
      { block with planningRows := rows.enum.map (fun p =>
          match final.find? (fun e => e.idx == p.1) with
          | some e => setAlloc p.2 e.alloc
          | none => p.2) } := by
    rw [autoAllocateFaces.eq_def]
    simp only [← hrowsdef, ← hBdef]
    rw [if_neg h1, if_neg h2]
  rw [hauto]
  obtain ⟨hr1, hr2⟩ := recalc_preserves
    { block with planningRows := rows.enum.map (fun p =>
        match final.find? (fun e => e.idx == p.1) with
        | some e => setAlloc p.2 e.alloc
        | none => p.2) }
  constructor
  · rw [hr1]
    calc _ = (final.map (fun e => e.row.unitario_bruto_tabela * e.alloc)).sum := hwb2
      _ ≤ B := hfinsum
  · intro r hr
    obtain ⟨r0, hr0, hs1, hs2, hs3, hs4, _⟩ := hr2 r hr
    obtain ⟨e, he, rfl⟩ := hwb1 r0 hr0
    rw [hs1, hs2, hs3, hs4]
    exact ⟨rfl, rfl, rfl⟩

/-- Claim C10 witness:: the spend bound at a concrete two-row block. -/
theorem auto_allocation_budget_bound_witness :
    ((autoAllocateFaces c10Block).planningRows.map
        (fun r => r.unitario_bruto_tabela * r.s1_edit)).sum ≤ c10Block.budget ∧
      ∀ r ∈ (autoAllocateFaces c10Block).planningRows,
        r.s1_edit = r.s2_edit ∧ r.s2_edit = r.s3_edit ∧ r.s3_edit = r.s4_edit :=
  auto_allocation_budget_bound c10Block (by norm_num [c10Block])
    (by
      have h : totalMaxCost c10Block.planningRows = 200 := by with_unfolding_all rfl
      rw [h]
      norm_num)
    (by
      have h : totalMaxCost c10Block.planningRows = 200 := by with_unfolding_all rfl
      rw [h]
      norm_num [c10Block])
    (by
      intro r hr
      rcases List.mem_cons.mp hr with h | hr2
      · rw [h]
        norm_num [mkRow]
      · rcases List.mem_cons.mp hr2 with h | hr3
        · rw [h]
          norm_num [mkRow]
        · simp at hr3)

end OOH
